import Mathlib

/-!
# xv6 demand-paging virtual memory: frame allocator and page-fault handler

A shallow embedding of `kernel/kalloc.c` and of the page-fault branch of
`usertrap` in `kernel/trap.c`, with the properties of the specification
proved (or refuted) on it.

Conventions.
* Addresses, PTEs and other `uint64` values are natural numbers below `2^64`.
* The free list is kept the way the C code keeps it: a head pointer
  `kmem.freelist` and, inside every free frame, the pointer `r->next`.
  `Kmem.next pa` is the 64-bit word stored at physical address `pa`.
* `panic` stops the kernel; the outcome records the state at that moment.
* Routines whose source is not part of `kernel/kalloc.c` / `kernel/trap.c`
  are either parameters (`Ext`) or are modelled from the specification, and
  are marked so.
-/

namespace Xv6

/-! ## Constants of `riscv.h` / `memlayout.h` -/

/-- Modelled from the spec: `riscv.h` is not among the sources; section 6.4 fixes
`PGSIZE = 4096`. -/
def PGSIZE : Nat := 4096

/-- Modelled from the spec: `PGROUNDDOWN(a) = a & ~(PGSIZE-1)` of `riscv.h`
(the faulting address is "page-aligned", section 4.5). -/
def PGROUNDDOWN (a : Nat) : Nat := a / PGSIZE * PGSIZE

/-- Modelled from the spec: `PGROUNDUP(sz) = (sz + PGSIZE - 1) & ~(PGSIZE-1)` of
`riscv.h`, in 64-bit unsigned arithmetic. -/
def PGROUNDUP (sz : Nat) : Nat := (sz + PGSIZE - 1) % 2 ^ 64 / PGSIZE * PGSIZE

/-- The physical memory layout: the linker symbol `end` (first address after
the kernel) and `PHYSTOP`; `kernel.ld` and `memlayout.h` are not among the
sources, so both are parameters. -/
structure Layout where
  kend : Nat
  PHYSTOP : Nat

/-! ## Allocator state (`kalloc.c`) -/

/-- The state behind `struct { lock; freelist } kmem` together with the
`struct run` headers that live inside the frames: `next pa` is the word at
physical address `pa`, which is `((struct run*)pa)->next`. -/
structure Kmem where
  freelist : Nat
  next : Nat → Nat

/-- The word at the start of a page after `memset(pa, c, PGSIZE)`. -/
def fillWord (c : Nat) : Nat := c % 256 * 0x0101010101010101

/-- The effect of `memset(pa, c, PGSIZE)` on the tracked word of the page. -/
def memsetPage (pa c : Nat) (k : Kmem) : Kmem :=
  { k with next := Function.update k.next pa (fillWord c) }

/-- Result of a kernel routine that may call `panic`. -/
inductive Outcome (σ : Type) where
  | ok (s : σ)
  | panic (msg : String) (s : σ)

/-- Whether the routine ended in `panic`. -/
def Outcome.panicked {σ : Type} : Outcome σ → Bool
  | .ok _ => false
  | .panic _ _ => true

/-- The state the routine ended in. -/
def Outcome.state {σ : Type} : Outcome σ → σ
  | .ok s => s
  | .panic _ s => s

/-- The function `kfree` of `kalloc.c`, lines 49-66. -/
def kfree (L : Layout) (pa : Nat) (k : Kmem) : Outcome Kmem :=
  if pa % PGSIZE ≠ 0 ∨ pa < L.kend ∨ pa ≥ L.PHYSTOP then
    .panic "kfree" k
  else
    -- Fill with junk to catch dangling refs.
    let k1 := memsetPage pa 1 k
    -- r->next = kmem.freelist; kmem.freelist = r;
    .ok { freelist := pa, next := Function.update k1.next pa k1.freelist }

/-- The frames of the free list in order: `chain next h l` says that following
`next` from the head pointer `h` visits exactly the frames `l` and then
reaches the null pointer. -/
def chain (next : Nat → Nat) : Nat → List Nat → Prop
  | h, [] => h = 0
  | h, a :: l => h = a ∧ a ≠ 0 ∧ chain next (next a) l

instance chainDecidable (next : Nat → Nat) : (h : Nat) → (l : List Nat) → Decidable (chain next h l)
  | h, [] => by unfold chain; exact inferInstance
  | h, a :: l => by
    unfold chain
    have := chainDecidable next (next a) l
    exact inferInstance

/-- The allocator state holds the free list `l`. -/
def Kmem.holds (k : Kmem) (l : List Nat) : Prop := chain k.next k.freelist l

instance (k : Kmem) (l : List Nat) : Decidable (k.holds l) := by
  unfold Kmem.holds; exact inferInstance

/-! ## Processes, console, world -/

/-- Access type of a page fault: scause 12, 13, 15. -/
inductive Access where
  | exec | read | write
  deriving DecidableEq, Repr

/-- The `cause=` token of a PAGEFAULT line. -/
inductive Cause where
  | swap | invalid | heap | stack | exec
  deriving DecidableEq, Repr

/-- Console lines printed by `kalloc.c` and by the page-fault branch of
`usertrap`. -/
inductive Line where
  | memfull (pid : Option Int)
  | pagefault (pid : Int) (va : Nat) (access : Access) (cause : Cause)
  | swapin (pid : Int) (va : Nat) (slot : Int)
  | resident (pid : Int) (va : Nat) (seq : Int)
  | killInvalidAccess (pid : Int) (va : Nat) (access : Access)
  deriving DecidableEq, Repr

/-- The fields of `struct proc` that the modelled code reads or writes
(`proc.h` is not among the sources; the fields are the ones named in
`trap.c`, `sysproc.c` and `exec.c`).  `pagetable va` is the content of the
leaf PTE slot for the page-aligned address `va`, `none` when no leaf
page-table page covers `va`.  `sp` is `trapframe->sp`.  The resident set is
the list of `(va, seq)` entries.  The C type of `fifo_seq_num` is not
visible; it is kept as a mathematical integer. -/
structure Proc where
  pid : Int
  sz : Nat
  exe_end : Nat
  sp : Nat
  killed : Bool
  pagetable : Nat → Option Nat
  swap_inode : Option Nat
  swap_slots : Int → Bool
  resident : List (Nat × Int)
  fifo_seq_num : Int

/-- Kernel state seen by the modelled code: the allocator and the process of
this CPU; `myproc()` is the null pointer when `hasproc` is false. -/
structure World where
  kmem : Kmem
  hasproc : Bool
  proc : Proc

/-- What the modelled code did, in program order: the lines it printed and
the calls it made (with their results).  `look r` is a read of
`kmem.freelist` that found `r`.  The trace is a record kept beside the
kernel state; routines outside the modelled files do not write to it. -/
inductive Event where
  | print (l : Line)
  | look (r : Nat)
  | do_page_replacement (pid : Int) (rc : Int)
  | kalloc (ret : Nat)
  | kfree (pa : Nat)
  | readi (ip dst off n : Nat) (rc : Int)
  | swap_slot_free (slot : Int)
  | mappages (va size pa perm : Nat) (rc : Int)
  | add_to_resident_set (va : Nat) (seq : Int)
  | vmfault (va read : Nat) (rc : Nat)
  | setkilled
  deriving DecidableEq, Repr

/-- The effect of `setkilled(p)` (`proc.c`): `p->killed = 1`. -/
def setkilled (w : World) : World := { w with proc := { w.proc with killed := true } }

/-- Routines called by the modelled code whose source is outside `kalloc.c`
and `trap.c`; they are parameters.
* `do_page_replacement(p)` (`vm.c`) for the current process: result (0 when
  nothing could be evicted) and new kernel state.
* `readi ip off n w` (`fs.c`), for `readi(ip, 0, dst, off, n)` with a kernel
  destination: the number of bytes read and the word left at `dst`; a read
  changes the destination page and nothing else of the modelled state.
* `vmfault va read w` (`vm.c`): result (0 on failure) and new kernel state. -/
structure Ext where
  do_page_replacement : World → Int × World
  readi : Nat → Nat → Nat → World → Int × Nat
  vmfault : Nat → Nat → World → Nat × World

/-! ## `kalloc` -/

/-- Result of `kalloc`: the returned pointer (0 for none), the new kernel
state and the trace of the call. -/
structure KallocRet where
  val : Nat
  world : World
  trace : List Event

/-- Lines 105-116 of `kalloc.c`: the second and last look at the free list. -/
def kallocRetry (w : World) (before : List Event) : KallocRet :=
  let r := w.kmem.freelist
  let w1 : World := if r ≠ 0 then { w with kmem := { w.kmem with freelist := w.kmem.next r } } else w
  let w2 : World := if r ≠ 0 then { w1 with kmem := memsetPage r 5 w1.kmem } else w1
  { val := r, world := w2, trace := before ++ [.look r] }

/-- The function `kalloc` of `kalloc.c`, lines 71-117. -/
def kalloc (E : Ext) (w : World) : KallocRet :=
  let r := w.kmem.freelist
  if r ≠ 0 then
    -- Normal case: page is free
    let w1 : World := { w with kmem := { w.kmem with freelist := w.kmem.next r } }
    { val := r, world := { w1 with kmem := memsetPage r 5 w1.kmem }, trace := [.look r] }
  else
    -- No free page. Try to make one via page replacement.
    let msg := Event.print (.memfull (if w.hasproc then some w.proc.pid else none))
    if w.hasproc then
      let res := E.do_page_replacement w
      if res.1 = 0 then
        -- Failed to evict (process has no pages)
        { val := 0, world := res.2,
          trace := [.look r, msg, .do_page_replacement w.proc.pid res.1] }
      else
        kallocRetry res.2 [.look r, msg, .do_page_replacement w.proc.pid res.1]
    else
      kallocRetry w [.look r, msg]

/-! ## Page-table entries -/

/-- Modelled from the spec: the RISC-V Sv39 PTE flag bits of `riscv.h`
(present, read, write, execute, user, dirty). -/
def PTE_V : Nat := 1
/-- Modelled from the spec: read permission bit. -/
def PTE_R : Nat := 2
/-- Modelled from the spec: write permission bit. -/
def PTE_W : Nat := 4
/-- Modelled from the spec: execute permission bit. -/
def PTE_X : Nat := 8
/-- Modelled from the spec: user permission bit. -/
def PTE_U : Nat := 16
/-- Modelled from the spec: dirty bit. -/
def PTE_D : Nat := 128

/-- Modelled from the spec: `PA2PTE(pa) = ((pa >> 12) << 10)` of `riscv.h`:
a Resident PTE holds the physical frame number in its upper bits. -/
def PA2PTE (pa : Nat) : Nat := (pa >>> 12) <<< 10

/-- Modelled from the spec: `PTE2PA(pte) = ((pte >> 10) << 12)` of `riscv.h`. -/
def PTE2PA (pte : Nat) : Nat := (pte >>> 10) <<< 12

/-- The swap encoding macros of `riscv.h`, which is not among the sources:
the kernel-defined swap bit `PTE_S` and the slot decoder `PTE_SLOT`. -/
structure Macros where
  PTE_S : Nat
  PTE_SLOT : Nat → Nat

/-- The C conversion of a `uint64` to `int`. -/
def toInt32 (x : Nat) : Int :=
  if x % 2 ^ 32 < 2 ^ 31 then ((x % 2 ^ 32 : Nat) : Int) else ((x % 2 ^ 32 : Nat) : Int) - 2 ^ 32

/-- The C conversion of an `int` to `uint64`. -/
def toU64 (i : Int) : Nat := (i % 2 ^ 64).toNat

/-- Modelled from the spec: `walk(root, va, 0)` of `vm.c` returns a reference
to the leaf PTE, or none. -/
def walk (pagetable : Nat → Option Nat) (va : Nat) : Option Nat := pagetable va

/-- Modelled from the spec: `swap_slot_free(p, slot)` of `vm.c`,
"free_slot(Index): clears the bit". -/
def swap_slot_free (slot : Int) (w : World) : World :=
  { w with proc := { w.proc with swap_slots := Function.update w.proc.swap_slots slot false } }

/-- The assignment `*pte = v` through the leaf PTE pointer for `va`. -/
def setPte (va v : Nat) (w : World) : World :=
  { w with proc := { w.proc with pagetable := Function.update w.proc.pagetable va (some v) } }

/-- Modelled from the spec: `mappages(pagetable, va, size, pa, perm)` of
`vm.c`, "map(root, va, len, pa, perms): installs Resident PTEs for the range.
Fails if any target PTE is already Resident".  The loop runs over the
`npages` pages of the range; a page without a leaf slot fails. -/
def mappagesLoop : Nat → (Nat → Option Nat) → Nat → Nat → Nat → Int × (Nat → Option Nat)
  | 0, pt, _, _, _ => (0, pt)
  | n + 1, pt, va, pa, perm =>
    match pt va with
    | none => (-1, pt)
    | some e =>
      if e &&& PTE_V ≠ 0 then (-1, pt)
      else mappagesLoop n (Function.update pt va (some (PA2PTE pa ||| perm ||| PTE_V)))
        (va + PGSIZE) (pa + PGSIZE) perm

/-- Modelled from the spec: `mappages` on the current process; returns 0 on
success and -1 on failure. -/
def mappages (va size pa perm : Nat) (w : World) : Int × World :=
  let r := mappagesLoop (size / PGSIZE) w.proc.pagetable va pa perm
  (r.1, { w with proc := { w.proc with pagetable := r.2 } })

/-- Modelled from the spec: `add_to_resident_set(p, va, seq)` of `vm.c`,
"add(va, seq): appends; callers guarantee size < RESIDENT_MAX before
calling". -/
def add_to_resident_set (va : Nat) (seq : Int) (w : World) : World :=
  { w with proc := { w.proc with resident := w.proc.resident ++ [(va, seq)] } }

/-! ## The page-fault branch of `usertrap` -/

/-- Result of the page-fault branch: the kernel state (or the state at a
panic) and the trace. -/
structure TrapRet where
  world : Outcome World
  trace : List Event

/-- The access type string chosen at `trap.c` lines 80-81. -/
def accessType (scause : Nat) : Access :=
  if scause = 12 then .exec else if scause = 13 then .read else .write

/-- The statements `kfree(mem); setkilled(p);` of the failure arms. -/
def freeAndKill (L : Layout) (mem : Nat) (w : World) (before : List Event) : TrapRet :=
  match kfree L mem w.kmem with
  | .panic msg k => { world := .panic msg { w with kmem := k }, trace := before ++ [.kfree mem] }
  | .ok k => { world := .ok (setkilled { w with kmem := k }),
               trace := before ++ [.kfree mem, .setkilled] }

/-- The swap-in arm, `trap.c` lines 85-130, for a leaf PTE holding `e`. -/
def swapInPath (L : Layout) (M : Macros) (E : Ext) (va : Nat) (access : Access) (e : Nat)
    (w : World) : TrapRet :=
  let l1 := Event.print (.pagefault w.proc.pid va access .swap)
  let slot : Int := toInt32 (M.PTE_SLOT e)
  let perms := e &&& (PTE_R ||| PTE_W ||| PTE_X ||| PTE_U)
  let l2 := Event.print (.swapin w.proc.pid va slot)
  let a := kalloc E w
  let mem := a.val
  let w1 := a.world
  let t1 := [l1, l2] ++ a.trace ++ [.kalloc mem]
  if mem = 0 then
    -- kalloc failed - kill process
    { world := .ok (setkilled w1), trace := t1 ++ [.setkilled] }
  else
    match w1.proc.swap_inode with
    | some ip =>
      -- Read page from swap file
      let off := toU64 slot * PGSIZE % 2 ^ 64
      let rd := E.readi ip off PGSIZE w1
      let w2 : World := { w1 with kmem := { w1.kmem with next := Function.update w1.kmem.next mem rd.2 } }
      let t2 := t1 ++ [.readi ip mem off PGSIZE rd.1]
      if rd.1 ≠ (PGSIZE : Int) then
        freeAndKill L mem w2 t2
      else
        -- Free the swap slot now that data is in memory
        let w3 := swap_slot_free slot w2
        -- Clear the old PTE (which was SLOT | PERMS | PTE_S)
        let w4 := setPte va 0 w3
        -- Map the new page with original perms
        let mp := mappages va PGSIZE mem (perms ||| PTE_V) w4
        let t3 := t2 ++ [.swap_slot_free slot, .mappages va PGSIZE mem (perms ||| PTE_V) mp.1]
        if mp.1 ≠ 0 then
          freeAndKill L mem mp.2 t3
        else
          -- Add to resident set (for FIFO replacement)
          let w5 := mp.2
          let seq := w5.proc.fifo_seq_num
          let w6 := add_to_resident_set va seq w5
          { world := .ok { w6 with proc := { w6.proc with fifo_seq_num := w6.proc.fifo_seq_num + 1 } },
            trace := t3 ++ [.add_to_resident_set va seq,
                            .print (.resident w6.proc.pid va w6.proc.fifo_seq_num)] }
    | none =>
      -- No swap file - kill process
      freeAndKill L mem w1 t1

/-- The cause chosen for a fresh page, `trap.c` lines 139-146. -/
def freshCause (p : Proc) (va : Nat) : Cause :=
  if va ≥ p.exe_end ∧ va < p.sz then .heap
  else if va ≥ p.sp ∧ va < (p.sp + PGSIZE) % 2 ^ 64 then .stack
  else if va < p.exe_end then .exec
  else .heap

/-- The invalid-access arm, `trap.c` lines 132-135. -/
def invalidPath (va : Nat) (access : Access) (w : World) : TrapRet :=
  { world := .ok (setkilled w),
    trace := [.print (.pagefault w.proc.pid va access .invalid),
              .print (.killInvalidAccess w.proc.pid va access),
              .setkilled] }

/-- The fresh-page arm, `trap.c` lines 137-153. -/
def freshPath (E : Ext) (scause va : Nat) (access : Access) (w : World) : TrapRet :=
  let cause := freshCause w.proc va
  let l := Event.print (.pagefault w.proc.pid va access cause)
  let rd := if scause = 13 then 1 else 0
  let r := E.vmfault va rd w
  if r.1 = 0 then
    { world := .ok (setkilled r.2), trace := [l, .vmfault va rd r.1, .setkilled] }
  else
    { world := .ok r.2, trace := [l, .vmfault va rd r.1] }

/-- The page-fault branch of `usertrap`, `trap.c` lines 73-154, entered with
`scause` in 12, 13, 15 and `stval` the faulting address.  For a null `pte`
the test of line 84 fails at `pte != 0` and the test of line 131 holds. -/
def usertrap_pagefault (L : Layout) (M : Macros) (E : Ext) (scause stval : Nat) (w : World) :
    TrapRet :=
  let va := PGROUNDDOWN stval
  let access := accessType scause
  match walk w.proc.pagetable va with
  | none => invalidPath va access w
  | some e =>
    if e &&& PTE_V = 0 ∧ e &&& M.PTE_S ≠ 0 then
      -- 1. HANDLE SWAP-IN
      swapInPath L M E va access e w
    else if e &&& PTE_V ≠ 0 then
      -- 2. INVALID ACCESS or PAGE ALREADY MAPPED
      invalidPath va access w
    else
      -- 3. HANDLE REGULAR DEMAND PAGING (fresh page)
      freshPath E scause va access w

/-! ## The replacement policy as the specification describes it -/

/-- Modelled from the spec: `do_page_replacement` (`vm.c`) is not among the
sources.  Section 4.6 lets the policy write the victim's PTE, allocate a swap
slot, remove the victim from the resident set and free its frame; it never
touches the FIFO counter. -/
def ReplKeepsSeq (E : Ext) : Prop :=
  ∀ w : World, (E.do_page_replacement w).2.proc.fifo_seq_num = w.proc.fifo_seq_num

/-- Modelled from the spec: what section 4.6 leaves alone, seen from a fault
on the non-resident page `va` whose PTE names the swap slot `slot`: the FIFO
counter, the PTE of a page that is not Resident (victims are Resident), every
allocated swap slot (the policy only allocates), and it adds no entry to the
resident set (it only removes the victim). -/
def ReplKeepsFault (E : Ext) (va : Nat) (slot : Int) : Prop :=
  ∀ w : World,
    (E.do_page_replacement w).2.proc.fifo_seq_num = w.proc.fifo_seq_num ∧
    (∀ e, w.proc.pagetable va = some e → e &&& PTE_V = 0 →
      (E.do_page_replacement w).2.proc.pagetable va = some e) ∧
    (w.proc.swap_slots slot = true → (E.do_page_replacement w).2.proc.swap_slots slot = true) ∧
    (∀ x ∈ (E.do_page_replacement w).2.proc.resident, x ∈ w.proc.resident)

/-- Modelled from the spec: `oldest()` of section 4.3, the resident entry with
the smallest sequence number. -/
def oldest : List (Nat × Int) → Option (Nat × Int)
  | [] => none
  | x :: xs =>
    match oldest xs with
    | none => some x
    | some y => if x.2 ≤ y.2 then some x else some y

/-- Modelled from the spec: `alloc_slot()` of section 4.2 over `nslots` slots:
the first clear bit of the bitmap. -/
def alloc_slot (nslots : Nat) (bitmap : Int → Bool) : Option Nat :=
  (List.range nslots).find? (fun i => !bitmap (i : Int))

/-- Modelled from the spec: the FIFO replacement of section 4.6, steps 1-8,
for the current process, with `nslots` swap slots and a disk whose writes
succeed when `writeOk`.  It returns 1 after an eviction and 0 when it
reports failure.  The swap file is created at the first eviction. -/
def fifoReplacement (L : Layout) (M : Macros) (nslots : Nat) (writeOk : Bool) (w : World) :
    Int × World :=
  match oldest w.proc.resident with
  | none => (0, w)
  | some victim =>
    match walk w.proc.pagetable victim.1 with
    | none => (0, w)
    | some e =>
      if e &&& PTE_V = 0 then (0, w)
      else
        match alloc_slot nslots w.proc.swap_slots with
        | none => (0, w)
        | some slot =>
          if writeOk = false then (0, w)
          else
            let perms := e &&& (PTE_R ||| PTE_W ||| PTE_X ||| PTE_U)
            let p1 : Proc :=
              { w.proc with
                swap_inode := (match w.proc.swap_inode with | none => some 1 | some ip => some ip)
                swap_slots := Function.update w.proc.swap_slots (slot : Int) true
                pagetable := Function.update w.proc.pagetable victim.1
                  (some (slot <<< 10 ||| perms ||| M.PTE_S))
                resident := w.proc.resident.filter (fun x => x.1 ≠ victim.1) }
            (1, { w with proc := p1, kmem := (kfree L (PTE2PA e) w.kmem).state })

/-! ## Trace predicates and concrete states used by the examples -/

/-- The event is a call of `do_page_replacement`. -/
def Event.isReplacement : Event → Bool
  | .do_page_replacement _ _ => true
  | _ => false

/-- The event is a read of `kmem.freelist`. -/
def Event.isLook : Event → Bool
  | .look _ => true
  | _ => false

/-- The event is a printed MEMFULL line. -/
def Event.isMemfull : Event → Bool
  | .print (.memfull _) => true
  | _ => false

/-- The event is a call of `vmfault`. -/
def Event.isVmfault : Event → Bool
  | .vmfault _ _ _ => true
  | _ => false

/-- The event is a printed KILL invalid-access line. -/
def Event.isKillInvalid : Event → Bool
  | .print (.killInvalidAccess _ _ _) => true
  | _ => false

/-- The event is a printed PAGEFAULT line with cause=swap. -/
def Event.isSwapFault : Event → Bool
  | .print (.pagefault _ _ _ .swap) => true
  | _ => false

/-- The event belongs to neither the invalid-access arm nor the fresh-page
arm: it is not a call of `vmfault` and not a KILL invalid-access line. -/
def Event.quiet (ev : Event) : Bool := !ev.isVmfault && !ev.isKillInvalid

/-- The event is a call of `add_to_resident_set`. -/
def Event.isAdd : Event → Bool
  | .add_to_resident_set _ _ => true
  | _ => false

/-- A memory layout as on the qemu `virt` board: kernel ends at 0x80040000,
RAM ends at 0x88000000. -/
def demoLayout : Layout := { kend := 0x80040000, PHYSTOP := 0x88000000 }

/-- An allocator whose free list is 0x87fff000, 0x87ffe000. -/
def demoKmem : Kmem :=
  { freelist := 0x87fff000
    next := fun a => if a = 0x87fff000 then 0x87ffe000 else 0 }

/-- An allocator with an empty free list. -/
def emptyKmem : Kmem := { freelist := 0, next := fun _ => 0 }

/-- A process of 4 pages with text in page 0, no swap file, whose leaf
page-table page exists and is all zero. -/
def demoProc : Proc :=
  { pid := 3, sz := 0x4000, exe_end := 0x1000, sp := 0x3fe0, killed := false
    pagetable := fun va => if va < 0x200000 then some 0 else none
    swap_inode := none
    swap_slots := fun _ => false
    resident := []
    fifo_seq_num := 0 }

/-- External routines that fail: nothing to evict, nothing read, `vmfault`
refuses. -/
def failExt : Ext :=
  { do_page_replacement := fun w => (0, w)
    readi := fun _ _ _ _ => (0, 0)
    vmfault := fun _ _ w => (0, w) }

/-- External routines that succeed: `vmfault` maps the page on a frame and
returns it, a read delivers a whole page. -/
def okExt : Ext :=
  { do_page_replacement := fun w => (0, w)
    readi := fun _ _ n _ => (n, 0xabababababababab)
    vmfault := fun va _ w => (0x87ffd000, setPte va (PA2PTE 0x87ffd000 ||| 0x1f) w) }

/-- Swap macros with the swap bit in the first software-reserved PTE bit and
the slot index in the frame-number field. -/
def demoMacros : Macros := { PTE_S := 256, PTE_SLOT := fun e => e >>> 10 }

/-- External routines with the FIFO replacement of the specification (8
swap slots, a working disk) and reads that deliver a whole page. -/
def fifoExt : Ext :=
  { do_page_replacement := fifoReplacement demoLayout demoMacros 8 true
    readi := fun _ _ n _ => (n, 0xabababababababab)
    vmfault := fun _ _ w => (0, w) }

/-- A process with page 0x3000 resident on frame 0x87ffe000 (sequence number
6) and page 0x2000 swapped out to slot 5 with permissions R, W, U. -/
def swapProc : Proc :=
  { pid := 4, sz := 0x4000, exe_end := 0x1000, sp := 0x3fe0, killed := false
    pagetable := fun va =>
      if va = 0x2000 then some (5 <<< 10 ||| 0x16 ||| 256)
      else if va = 0x3000 then some (PA2PTE 0x87ffe000 ||| 0x17)
      else if va < 0x200000 then some 0 else none
    swap_inode := some 1
    swap_slots := fun i => decide (i = 5)
    resident := [(0x3000, 6)]
    fifo_seq_num := 7 }

/-- The swapping process under memory pressure: no free frame. -/
def pressureWorld : World := { kmem := emptyKmem, hasproc := true, proc := swapProc }

/-- The swapping process with free frames. -/
def swapWorld : World := { kmem := demoKmem, hasproc := true, proc := swapProc }

/-- The swapping process with free frames but without its swap file. -/
def lostSwapWorld : World :=
  { kmem := demoKmem, hasproc := true, proc := { swapProc with swap_inode := none } }

/-- A kernel state with free frames and a current process. -/
def demoWorld : World := { kmem := demoKmem, hasproc := true, proc := demoProc }

/-- The same kernel state once the text page at address 0 is resident: a
valid leaf PTE with the permissions R, X and U. -/
def textWorld : World :=
  setPte 0 (PA2PTE 0x87ffd000 ||| (PTE_R ||| PTE_X ||| PTE_U) ||| PTE_V) demoWorld

/-- A kernel state with no free frame and no current process (`myproc()`
is 0, as on a CPU that runs the scheduler). -/
def idleWorld : World := { kmem := emptyKmem, hasproc := false, proc := demoProc }

/-- A kernel state with no free frame and a current process. -/
def fullWorld : World := { kmem := emptyKmem, hasproc := true, proc := demoProc }

/-! ## System calls of `sysproc.c` -/

/-- Constants of `param.h`, `vm.h`, `memstat.h` and `elf.h`, which are not
among the sources; they are parameters. -/
structure Params where
  RESIDENT_MAX : Nat
  MAX_PAGES_INFO : Nat
  SBRK_EAGER : Int
  MAXARG : Nat
  ELF_MAGIC : Nat
  ELF_PROG_LOAD : Nat

/-- Routines called by `sysproc.c` whose source is outside the modelled
files; they are parameters.
* `growproc n w` (`proc.c`): result (negative on failure) and new state.
* `find_seq_in_resident_set p va` (`vm.c`): the sequence number reported for
  a resident page.
* `copyout w dst` (`vm.c`), for the copy of the statistics record to the
  user address `dst`: whether it succeeded. -/
structure SysExt where
  growproc : Int → World → Int × World
  find_seq_in_resident_set : Proc → Nat → Int
  copyout : World → Nat → Bool

/-- Calls made by `sys_sbrk`, in program order. -/
inductive SbrkCall where
  | growproc (n : Int) (rc : Int)
  deriving DecidableEq, Repr

/-- Result of `sys_sbrk`: the `uint64` return value, the new kernel state and
the calls made. -/
structure SbrkRet where
  ret : Nat
  world : World
  calls : List SbrkCall

/-- The function `sys_sbrk` of `sysproc.c`, lines 42-66, with the arguments
`n` and `t` that `argint` delivers.  The value -1 is returned as the
`uint64` 2^64 - 1. -/
def sys_sbrk (P : Params) (X : SysExt) (n t : Int) (w : World) : SbrkRet :=
  let addr := w.proc.sz
  if t = P.SBRK_EAGER ∨ n < 0 then
    let g := X.growproc n w
    if g.1 < 0 then
      { ret := 2 ^ 64 - 1, world := g.2, calls := [.growproc n g.1] }
    else
      { ret := addr, world := g.2, calls := [.growproc n g.1] }
  else
    -- Lazily allocate memory for this process: increase its memory
    -- size but don't allocate memory.
    if (addr + toU64 n) % 2 ^ 64 < addr then
      { ret := 2 ^ 64 - 1, world := w, calls := [] }
    else
      { ret := addr,
        world := { w with proc := { w.proc with sz := (w.proc.sz + toU64 n) % 2 ^ 64 } },
        calls := [] }

/-- The page states of `memstat.h`. -/
inductive PageState where
  | UNMAPPED | RESIDENT | SWAPPED
  deriving DecidableEq, Repr

/-- One entry of the statistics record, `struct page_stat` of `memstat.h`. -/
structure page_stat where
  va : Nat
  state : PageState
  is_dirty : Int
  seq : Int
  swap_slot : Int
  deriving DecidableEq, Repr

/-- The statistics record, `struct proc_mem_stat` of `memstat.h`.  `pages`
holds the entries filled so far (`page_count` of them); the rest of the
array stays zero.  The counters are kept as mathematical numbers. -/
structure proc_mem_stat where
  pid : Int
  next_fifo_seq : Int
  num_pages_total : Nat
  num_resident_pages : Nat
  num_swapped_pages : Nat
  pages : List page_stat
  deriving DecidableEq, Repr

/-- The body of the loop of `sys_memstat`, lines 131-160: the entry written
for the page at `va`. -/
def memstatEntry (M : Macros) (X : SysExt) (p : Proc) (va : Nat) : page_stat :=
  match walk p.pagetable va with
  | none =>
    -- Page not in page table at all
    { va := va, state := .UNMAPPED, is_dirty := 0, seq := -1, swap_slot := -1 }
  | some e =>
    if e &&& PTE_V ≠ 0 then
      { va := va, state := .RESIDENT, is_dirty := if e &&& PTE_D ≠ 0 then 1 else 0,
        seq := X.find_seq_in_resident_set p va, swap_slot := -1 }
    else if e &&& M.PTE_S ≠ 0 then
      { va := va, state := .SWAPPED, is_dirty := 0, seq := -1,
        swap_slot := toInt32 (M.PTE_SLOT e) }
    else
      { va := va, state := .UNMAPPED, is_dirty := 0, seq := -1, swap_slot := -1 }

/-- The loop of `sys_memstat`, lines 129-163.  The first argument is
`MAX_PAGES_INFO - page_count`, the number of free entries of the array; the
loop stops when it is 0 or when `va >= p->sz`. -/
def memstatLoop (M : Macros) (X : SysExt) (p : Proc) : Nat → Nat → proc_mem_stat → proc_mem_stat
  | 0, _, k => k
  | room + 1, va, k =>
    if va < p.sz then
      let ps := memstatEntry M X p va
      let k1 : proc_mem_stat :=
        { k with
          pages := k.pages ++ [ps]
          num_resident_pages :=
            if ps.state = .RESIDENT then k.num_resident_pages + 1 else k.num_resident_pages
          num_swapped_pages :=
            if ps.state = .SWAPPED then k.num_swapped_pages + 1 else k.num_swapped_pages }
      memstatLoop M X p room ((va + PGSIZE) % 2 ^ 64) k1
    else k

/-- The function `sys_memstat` of `sysproc.c`, lines 112-171: the return value
(0, or -1 as 2^64 - 1 when `copyout` fails) and the record `k_info`. -/
def sys_memstat (P : Params) (M : Macros) (X : SysExt) (user_info_ptr : Nat) (w : World) :
    Nat × proc_mem_stat :=
  let k0 : proc_mem_stat :=
    { pid := w.proc.pid, next_fifo_seq := w.proc.fifo_seq_num,
      num_pages_total := w.proc.sz / PGSIZE,
      num_resident_pages := 0, num_swapped_pages := 0, pages := [] }
  let k := memstatLoop M X w.proc P.MAX_PAGES_INFO 0 k0
  (if X.copyout w user_info_ptr then 0 else 2 ^ 64 - 1, k)

/-- The number of reported entries in state UNMAPPED. -/
def proc_mem_stat.num_unmapped_pages (k : proc_mem_stat) : Nat :=
  k.pages.countP (fun ps => ps.state = .UNMAPPED)

/-- The entries the loop of `sys_memstat` writes for the pages number `i`,
`i + 1`, ..., `i + n - 1`. -/
def memstatEntries (M : Macros) (X : SysExt) (p : Proc) (i n : Nat) : List page_stat :=
  (List.range' i n).map (fun j => memstatEntry M X p (j * PGSIZE))

/-- Values for the constants as in a small xv6 configuration. -/
def demoParams : Params :=
  { RESIDENT_MAX := 16, MAX_PAGES_INFO := 128, SBRK_EAGER := 1, MAXARG := 32,
    ELF_MAGIC := 0x464C457F, ELF_PROG_LOAD := 1 }

/-- System-call helpers for the examples: `growproc` refuses, the sequence
number is looked up in the resident set, `copyout` succeeds. -/
def demoSys : SysExt :=
  { growproc := fun _ w => (-1, w)
    find_seq_in_resident_set := fun p va =>
      match p.resident.find? (fun x => x.1 = va) with
      | some x => x.2
      | none => -1
    copyout := fun _ _ => true }

/-- The swapping process after it grew to 129 pages with `sbrk`. -/
def bigWorld : World :=
  { kmem := demoKmem, hasproc := true, proc := { swapProc with sz := 0x81000 } }

/-- A process whose resident set holds 16 pages (0x10000, 0x11000, ...), with
page 0x2000 swapped out to slot 5. -/
def crowdedProc : Proc :=
  { pid := 5, sz := 0x40000, exe_end := 0x1000, sp := 0x3ffe0, killed := false
    pagetable := fun va =>
      if va = 0x2000 then some (5 <<< 10 ||| 0x16 ||| 256)
      else if 0x10000 ≤ va ∧ va < 0x20000 then some (PA2PTE (0x87000000 + va) ||| 0x17)
      else if va < 0x200000 then some 0 else none
    swap_inode := some 1
    swap_slots := fun i => decide (i = 5)
    resident := (List.range 16).map (fun i => (0x10000 + i * 0x1000, (i : Int)))
    fifo_seq_num := 16 }

/-- The crowded process with free frames in the allocator. -/
def crowdedWorld : World := { kmem := demoKmem, hasproc := true, proc := crowdedProc }

/-! ## The cause of a fresh page as the specification states it -/

/-- The decision function of the specification for the cause of a fresh page,
in its own words: heap if `exe_end <= va < sz`; otherwise stack if
`sp <= va < sp + PGSIZE`; otherwise exec if `va < exe_end`; otherwise heap.
It is compared with `freshCause`, the one read off `trap.c`. -/
def specCause (exe_end sz sp va : Nat) : Cause :=
  if exe_end ≤ va ∧ va < sz then .heap
  else if sp ≤ va ∧ va < sp + PGSIZE then .stack
  else if va < exe_end then .exec
  else .heap

/-- The demo process with a page-aligned stack pointer 0x3000. -/
def alignedSpWorld : World :=
  { kmem := demoKmem, hasproc := true, proc := { demoProc with sp := 0x3000 } }

/-! ## `kexec` (`exec.c`) -/

/-- One program header as `readi` delivers it (`struct proghdr` of `elf.h`). -/
structure ProgHdr where
  ptype : Nat
  vaddr : Nat
  memsz : Nat
  filesz : Nat

/-- The fields of the ELF header that `kexec` uses (`struct elfhdr`). -/
structure ElfHdr where
  magic : Nat
  entry : Nat
  phnum : Nat

/-- The executable as `kexec` sees it through `namei` and `readi`: its inode,
the ELF header (`none` when the read comes back short) and the program header
number `i` (`none` when that read comes back short). -/
structure ElfFile where
  ino : Nat
  hdr : Option ElfHdr
  ph : Nat → Option ProgHdr

/-- Routines called by `kexec` whose source is outside `exec.c`; they are
parameters.
* `proc_pagetable` (`proc.c`): a fresh user page table, or none; it takes its
  page-table frames from the allocator.
* `uvmalloc pt oldsz newsz xperm w` (`vm.c`): the returned size (0 on
  failure), the page table after the call and the new kernel state.
* `copyout pt dst len` (`vm.c`): whether the copy of `len` bytes to the user
  address `dst` succeeded; the model does not track frame contents.
* `proc_freepagetable pt sz` (`proc.c`): gives frames back to the allocator. -/
structure ExecExt where
  proc_pagetable : Kmem → Option (Nat → Option Nat) × Kmem
  uvmalloc : (Nat → Option Nat) → Nat → Nat → Nat → World →
    Nat × (Nat → Option Nat) × World
  copyout : (Nat → Option Nat) → Nat → Nat → Bool
  proc_freepagetable : (Nat → Option Nat) → Nat → Kmem → Kmem

/-- The state `kexec` works on: the kernel state and the further fields of
`struct proc` it writes (`exe_inode`, `trapframe->a1`, `trapframe->epc`).  The
program name `p->name` is not tracked. -/
structure ExecWorld where
  world : World
  exe_inode : Option Nat
  a1 : Nat
  epc : Nat

/-- What `kexec` did, in program order: the reads of the file, the calls and
the INIT-LAZYMAP line. -/
inductive ExecEvent where
  | namei (found : Bool)
  | readElfHdr (ok : Bool)
  | readProgHdr (i : Nat) (ok : Bool)
  | proc_pagetable (ok : Bool)
  | iput (ino : Nat)
  | idup (ino : Nat)
  | uvmalloc (oldsz newsz xperm ret : Nat)
  | copyout (dst len : Nat) (ok : Bool)
  | proc_freepagetable (sz : Nat)
  | initLazymap (pid : Int) (exe_end sz sp : Nat)
  deriving DecidableEq, Repr

/-- Result of `kexec`: the return value (argc, or -1), the new state and the
trace. -/
structure ExecRet where
  ret : Int
  state : ExecWorld
  trace : List ExecEvent

/-- Put an event in front of the trace of a loop result. -/
def withEvent {α : Type} (ev : ExecEvent) (r : α × List ExecEvent) : α × List ExecEvent :=
  (r.1, ev :: r.2)

/-- The loop over the program headers, `exec.c` lines 74-89, for the `n`
headers from number `i` on, entered with the running maximum `sz`.  The
result is whether the loop ran to its end (false: `goto bad`), the value of
`sz` then, and the reads made. -/
def scanHeaders (P : Params) (f : ElfFile) : Nat → Nat → Nat → (Bool × Nat) × List ExecEvent
  | 0, _, sz => ((true, sz), [])
  | n + 1, i, sz =>
    match f.ph i with
    | none => ((false, sz), [.readProgHdr i false])
    | some ph =>
      if ph.ptype ≠ P.ELF_PROG_LOAD then
        withEvent (.readProgHdr i true) (scanHeaders P f n (i + 1) sz)
      else if ph.memsz < ph.filesz then ((false, sz), [.readProgHdr i true])
      else if (ph.vaddr + ph.memsz) % 2 ^ 64 < ph.vaddr then ((false, sz), [.readProgHdr i true])
      else if ph.vaddr % PGSIZE ≠ 0 then ((false, sz), [.readProgHdr i true])
      else
        -- Just calculate size, don't allocate
        withEvent (.readProgHdr i true)
          (scanHeaders P f n (i + 1)
            (if sz < (ph.vaddr + ph.memsz) % 2 ^ 64 then (ph.vaddr + ph.memsz) % 2 ^ 64 else sz))

/-- The 64-bit subtraction `a - b`. -/
def sub64 (a b : Nat) : Nat := (a + 2 ^ 64 - b % 2 ^ 64) % 2 ^ 64

/-- The loop that copies the argument strings, `exec.c` lines 113-123, entered
with `argc`, `sp` and the `ustack` entries so far.  The result is none for
`goto bad`, else the final `argc`, `sp` and `ustack`. -/
def pushArgs (P : Params) (X : ExecExt) (pt : Nat → Option Nat) (stackbase : Nat) :
    List String → Nat → Nat → List Nat → Option (Nat × Nat × List Nat) × List ExecEvent
  | [], argc, sp, ustack => (some (argc, sp, ustack), [])
  | a :: rest, argc, sp, ustack =>
    if argc ≥ P.MAXARG then (none, [])
    else
      let len := a.utf8ByteSize + 1
      let sp1 := sub64 sp len
      let sp2 := sp1 - sp1 % 16
      if sp2 < stackbase then (none, [])
      else if X.copyout pt sp2 len = false then (none, [.copyout sp2 len false])
      else
        withEvent (.copyout sp2 len true)
          (pushArgs P X pt stackbase rest (argc + 1) sp2 (ustack ++ [sp2]))

/-- The `iput` made when an inode pointer is not null. -/
def iputOf : Option Nat → List ExecEvent
  | some ino => [.iput ino]
  | none => []

/-- The statements of `exec.c` lines 66-70: drop the swap file and clear the
swap-slot bitmap. -/
def resetSwap (w : World) : World :=
  { w with proc := { w.proc with swap_inode := none, swap_slots := fun _ => false } }

/-- The assignment `p->exe_end = sz` of `exec.c` line 99. -/
def setExeEnd (sz : Nat) (w : World) : World :=
  { w with proc := { w.proc with exe_end := sz } }

/-- The label `bad` of `kexec`, lines 164-171, reached with a page table:
`proc_freepagetable(pagetable, sz)` and return -1. -/
def execBad (X : ExecExt) (pt : Nat → Option Nat) (sz : Nat) (s : ExecWorld)
    (before : List ExecEvent) : ExecRet :=
  { ret := -1,
    state := { s with world := { s.world with kmem := X.proc_freepagetable pt sz s.world.kmem } },
    trace := before ++ [.proc_freepagetable sz] }

/-- The function `kexec` of `exec.c`, lines 28-172, for the file `namei(path)`
finds (`none`: no such file) and the argument strings `argv`. -/
def kexec (P : Params) (X : ExecExt) (file : Option ElfFile) (argv : List String)
    (s : ExecWorld) : ExecRet :=
  match file with
  | none => { ret := -1, state := s, trace := [.namei false] }
  | some f =>
    match f.hdr with
    | none => { ret := -1, state := s, trace := [.namei true, .readElfHdr false] }
    | some elf =>
      -- Is this really an ELF file?
      if elf.magic ≠ P.ELF_MAGIC then
        { ret := -1, state := s, trace := [.namei true, .readElfHdr true] }
      else
        let pp := X.proc_pagetable s.world.kmem
        match pp.1 with
        | none =>
          { ret := -1, state := { s with world := { s.world with kmem := pp.2 } },
            trace := [.namei true, .readElfHdr true, .proc_pagetable false] }
        | some pt =>
          let w0 : World := { s.world with kmem := pp.2 }
          -- Store the executable inode for demand paging
          let t1 := [ExecEvent.namei true, .readElfHdr true, .proc_pagetable true] ++
            iputOf s.exe_inode ++ [.idup f.ino]
          -- Reset swap file state for this process
          let t2 := t1 ++ iputOf w0.proc.swap_inode
          let w1 : World := resetSwap w0
          let s1 : ExecWorld := { s with world := w1, exe_inode := some f.ino }
          -- Calculate the size needed for code/data segments (for p->sz)
          -- but do NOT allocate or load the pages.
          let sc := scanHeaders P f elf.phnum 0 0
          let t3 := t2 ++ sc.2
          if sc.1.1 = false then execBad X pt sc.1.2 s1 t3
          else
            let oldsz := w1.proc.sz
            -- Store where the executable ends (start of heap)
            let w2 : World := setExeEnd sc.1.2 w1
            -- Allocate only the first stack page
            let sz := PGROUNDUP sc.1.2
            let uv := X.uvmalloc pt sz ((sz + PGSIZE) % 2 ^ 64) PTE_W w2
            let t4 := t3 ++ [.uvmalloc sz ((sz + PGSIZE) % 2 ^ 64) PTE_W uv.1]
            if uv.1 = 0 then execBad X uv.2.1 sz { s1 with world := uv.2.2 } t4
            else
              let sz1 := uv.1
              let pt1 := uv.2.1
              let s3 : ExecWorld := { s1 with world := uv.2.2 }
              let stackbase := sub64 sz1 PGSIZE
              let pa := pushArgs P X pt1 stackbase argv 0 sz1 []
              match pa.1 with
              | none => execBad X pt1 sz1 s3 (t4 ++ pa.2)
              | some (argc, sp1, _) =>
                -- push a copy of ustack[], the array of argv[] pointers.
                let n := (argc + 1) * 8
                let sp2 := sub64 sp1 n
                let sp3 := sp2 - sp2 % 16
                if sp3 < stackbase then execBad X pt1 sz1 s3 (t4 ++ pa.2)
                else if X.copyout pt1 sp3 n = false then
                  execBad X pt1 sz1 s3 (t4 ++ pa.2 ++ [.copyout sp3 n false])
                else
                  -- Commit to the user image.
                  let oldpagetable := s3.world.proc.pagetable
                  let w4 : World :=
                    { s3.world with
                      proc := { s3.world.proc with pagetable := pt1, sz := sz1, sp := sp3 } }
                  let w5 : World :=
                    { w4 with kmem := X.proc_freepagetable oldpagetable oldsz w4.kmem }
                  -- Swap file will be created lazily when first needed
                  let w6 : World := { w5 with proc := { w5.proc with swap_inode := none } }
                  { ret := argc,
                    state := { world := w6, exe_inode := some f.ino, a1 := sp3, epc := elf.entry },
                    trace := t4 ++ pa.2 ++
                      [.copyout sp3 n true, .proc_freepagetable oldsz,
                       .initLazymap w6.proc.pid w6.proc.exe_end sz1 sp3] }

/-- Whether the page table maps the page at `va`: the leaf PTE exists and
has V=1. -/
def isMapped (pt : Nat → Option Nat) (va : Nat) : Bool :=
  match pt va with
  | some e => decide (e &&& PTE_V ≠ 0)
  | none => false

/-- Modelled from the spec: `uvmalloc` (`vm.c`) is not among the sources.
Section 4.7 has exec "allocate and map only the top stack page".  This is the
contract of the one call `kexec` makes, `uvmalloc(pagetable, a, a + PGSIZE,
xperm)` for a page-aligned `a` with `a + PGSIZE` inside the 64-bit address
space: the call returns 0 or the new size `a + PGSIZE`; when it returns the
new size, the returned table maps the page at `a` (leaf PTE with V=1) and
maps the same pages as before everywhere else.  Whatever frame allocation
does to the current process, it does not write `exe_end`. -/
def UvmallocSpec (X : ExecExt) : Prop :=
  ∀ (pt : Nat → Option Nat) (a xperm : Nat) (w : World),
    a % PGSIZE = 0 → a + PGSIZE < 2 ^ 64 →
    (X.uvmalloc pt a (a + PGSIZE) xperm w).2.2.proc.exe_end = w.proc.exe_end ∧
    ((X.uvmalloc pt a (a + PGSIZE) xperm w).1 ≠ 0 →
      (X.uvmalloc pt a (a + PGSIZE) xperm w).1 = a + PGSIZE ∧
      isMapped (X.uvmalloc pt a (a + PGSIZE) xperm w).2.1 a = true ∧
      ∀ va, va < a ∨ a + PGSIZE ≤ va →
        isMapped (X.uvmalloc pt a (a + PGSIZE) xperm w).2.1 va = isMapped pt va)

/-- The tops `vaddr + memsz` of the LOAD headers among the `n` program headers
from number `i` on. -/
def loadTops (P : Params) (f : ElfFile) (i n : Nat) : List Nat :=
  (((List.range' i n).filterMap f.ph).filter (fun ph => ph.ptype = P.ELF_PROG_LOAD)).map
    (fun ph => ph.vaddr + ph.memsz)

/-- The value of `exe_end` in the words of the specification: the maximum of
`vaddr + memsz` over the program headers of type LOAD, 0 if there are none. -/
def specExeEnd (P : Params) (f : ElfFile) (phnum : Nat) : Nat :=
  (loadTops P f 0 phnum).foldl max 0

/-- The event is a call of `uvmalloc`. -/
def ExecEvent.isUvmalloc : ExecEvent → Bool
  | .uvmalloc _ _ _ _ => true
  | _ => false

/-- The event is a read of the executable file. -/
def ExecEvent.isRead : ExecEvent → Bool
  | .readElfHdr _ => true
  | .readProgHdr _ _ => true
  | _ => false

/-- Modelled from the spec: an instance of the routines of `kexec` for the
examples.  `proc_pagetable` delivers an empty user page table; `uvmalloc`
allocates and maps the one page exec asks for, with the frame `kalloc` hands
out, and returns the new size (0 when there is no frame); `copyout` succeeds on
a mapped user page; the frames of a freed page table are not followed. -/
def demoExec : ExecExt :=
  { proc_pagetable := fun k => (some (fun _ => none), k)
    uvmalloc := fun pt oldsz newsz xperm w =>
      if PGROUNDUP oldsz < newsz then
        if (kalloc failExt w).val = 0 then (0, pt, (kalloc failExt w).world)
        else
          (newsz,
           Function.update pt (PGROUNDUP oldsz)
             (some (PA2PTE (kalloc failExt w).val ||| (PTE_R ||| PTE_U ||| xperm) ||| PTE_V)),
           (kalloc failExt w).world)
      else (newsz, pt, w)
    copyout := fun pt dst _ =>
      match pt (PGROUNDDOWN dst) with
      | some e => decide (e &&& PTE_V ≠ 0 ∧ e &&& PTE_U ≠ 0)
      | none => false
    proc_freepagetable := fun _ _ k => k }

/-- An executable with two LOAD segments, `[0, 0x1800)` and `[0x2000, 0x2500)`. -/
def goodElf : ElfFile :=
  { ino := 9
    hdr := some { magic := 0x464C457F, entry := 0x40, phnum := 2 }
    ph := fun i =>
      if i = 0 then some { ptype := 1, vaddr := 0, memsz := 0x1800, filesz := 0x1000 }
      else if i = 1 then some { ptype := 1, vaddr := 0x2000, memsz := 0x500, filesz := 0x200 }
      else none }

/-- An executable whose single LOAD segment has `vaddr = 0`, `filesz = 0` and
`memsz = 2^64 - 1`: it passes every check of the header loop. -/
def hugeElf : ElfFile :=
  { ino := 9
    hdr := some { magic := 0x464C457F, entry := 0x40, phnum := 1 }
    ph := fun i =>
      if i = 0 then some { ptype := 1, vaddr := 0, memsz := 2 ^ 64 - 1, filesz := 0 }
      else none }

/-- An executable with a valid ELF header whose program header has
`memsz < filesz`. -/
def badElf : ElfFile :=
  { ino := 9
    hdr := some { magic := 0x464C457F, entry := 0x40, phnum := 1 }
    ph := fun i =>
      if i = 0 then some { ptype := 1, vaddr := 0, memsz := 0x100, filesz := 0x200 }
      else none }

/-- The swapping process (swap file 1, slot 5 in use, executable inode 7)
about to call exec, with free frames. -/
def execState : ExecWorld := { world := swapWorld, exe_inode := some 7, a1 := 0, epc := 0 }

/-- The same process about to call exec when no frame is free. -/
def execStateFull : ExecWorld :=
  { world := pressureWorld, exe_inode := some 7, a1 := 0, epc := 0 }

/-! ## Two CPUs in the fast path of `kalloc` -/

/-- Where a CPU stands in the fast path of `kalloc`, lines 78-88: before line
78; after the first critical section (lines 78-80) that read the head `r`,
with `r` not null; after the second critical section (lines 84-86) that wrote
`kmem.freelist = r->next`; after `memset` and `return r`; or out of the fast
path because the head was null. -/
inductive KPc where
  | start
  | seen (r : Nat)
  | popped (r : Nat)
  | done (r : Nat)
  | slow
  deriving DecidableEq, Repr

/-- One step of a CPU on the shared allocator: a whole critical section, or
the `memset` after it. -/
def KPc.step (k : Kmem) : KPc → Kmem × KPc
  | .start => (k, if k.freelist ≠ 0 then .seen k.freelist else .slow)
  | .seen r => ({ k with freelist := k.next r }, .popped r)
  | .popped r => (memsetPage r 5 k, .done r)
  | .done r => (k, .done r)
  | .slow => (k, .slow)

/-- Two CPUs, each inside one call of `kalloc`, and the allocator they share. -/
structure TwoCpus where
  kmem : Kmem
  cpu0 : KPc
  cpu1 : KPc

/-- Run an interleaving: each entry names the CPU that takes the next step
(false for CPU 0, true for CPU 1). -/
def runSchedule : List Bool → TwoCpus → TwoCpus
  | [], s => s
  | false :: rest, s =>
    runSchedule rest { s with kmem := (s.cpu0.step s.kmem).1, cpu0 := (s.cpu0.step s.kmem).2 }
  | true :: rest, s =>
    runSchedule rest { s with kmem := (s.cpu1.step s.kmem).1, cpu1 := (s.cpu1.step s.kmem).2 }

/-! ## `freerange` and `kinit` -/

/-- The loop of `freerange`, lines 40-41 of `kalloc.c`, entered with the
pointer `p`: `for(; p + PGSIZE <= pa_end; p += PGSIZE) kfree(p);` with the
pointer sums taken in 64 bits.  The loop ends when the test fails or when
`kfree` panics.  The first argument bounds the number of tests of the loop
condition; the result is none when the bound is used up. -/
def freerangeLoop (L : Layout) (pa_end : Nat) : Nat → Nat → Kmem → Option (Outcome Kmem)
  | 0, _, _ => none
  | fuel + 1, p, k =>
    if (p + PGSIZE) % 2 ^ 64 ≤ pa_end then
      match kfree L p k with
      | .panic msg k1 => some (.panic msg k1)
      | .ok k1 => freerangeLoop L pa_end fuel ((p + PGSIZE) % 2 ^ 64) k1
    else
      some (.ok k)

/-- The function `freerange` of `kalloc.c`, lines 36-43.  The pointer `p` is
always one of the 2^52 page-aligned 64-bit addresses, and whether the loop
goes on depends on `p` alone, so a loop that has not ended after 2^52 + 1
tests never ends: the result none stands for that. -/
def freerange (L : Layout) (pa_start pa_end : Nat) (k : Kmem) : Option (Outcome Kmem) :=
  freerangeLoop L pa_end (2 ^ 52 + 1) (PGROUNDUP pa_start) k

/-- The function `kinit` of `kalloc.c`, lines 29-34: `initlock` leaves the
allocator as it is, then `freerange(end, (void*)PHYSTOP)`. -/
def kinit (L : Layout) (k : Kmem) : Option (Outcome Kmem) :=
  freerange L L.kend L.PHYSTOP k

/-- The frames `freerange(pa_start, pa_end)` frees when nothing wraps, in the
order of the calls of `kfree`. -/
def rangeFrames (pa_start pa_end : Nat) : List Nat :=
  List.range' (PGROUNDUP pa_start) ((pa_end - PGROUNDUP pa_start) / PGSIZE) PGSIZE

/-- A frame address that passes the checks of `kfree`: page aligned and in
`[end, PHYSTOP)`. -/
def frameOk (L : Layout) (p : Nat) : Prop := p % PGSIZE = 0 ∧ L.kend ≤ p ∧ p < L.PHYSTOP

instance (L : Layout) (p : Nat) : Decidable (frameOk L p) := by
  unfold frameOk; exact inferInstance

/-- The frame met after following `next` from the head pointer `n` times;
none once the null pointer has been met. -/
def Kmem.nth (k : Kmem) : Nat → Option Nat
  | 0 => if k.freelist = 0 then none else some k.freelist
  | n + 1 =>
    match k.nth n with
    | none => none
    | some r => if k.next r = 0 then none else some (k.next r)

/-- All frames on the free list (every frame met when following `next` from
the head pointer) are page aligned and in `[end, PHYSTOP)`. -/
def Kmem.framesOk (L : Layout) (k : Kmem) : Prop := ∀ n p, k.nth n = some p → frameOk L p

/-- A small memory layout: the kernel ends at 0x1800, RAM ends at 0x5000,
which leaves the three frames 0x2000, 0x3000 and 0x4000. -/
def smallLayout : Layout := { kend := 0x1800, PHYSTOP := 0x5000 }

/-- The allocator of the small layout after `kinit`. -/
def bootKmem : Kmem := ((kinit smallLayout emptyKmem).map Outcome.state).getD emptyKmem

/-- The allocator of the small layout after `kinit` and a second `kfree` of
the frame 0x4000, which is at the head of the free list. -/
def refreedKmem : Kmem := (kfree smallLayout 0x4000 bootKmem).state

/-- A kernel state with that allocator and no current process. -/
def refreedWorld : World := { kmem := refreedKmem, hasproc := false, proc := demoProc }

/-! ## Lemmas on the free-list chain -/

theorem chain_congr (next next2 : Nat → Nat) :
    ∀ (l : List Nat) (h : Nat), (∀ a ∈ l, next2 a = next a) → chain next h l → chain next2 h l := by
  intro l
  induction l with
  | nil => intro h _ hc; simpa [chain] using hc
  | cons a l ih =>
    intro h hag hc
    simp only [chain] at hc ⊢
    refine ⟨hc.1, hc.2.1, ?_⟩
    rw [hag a (List.mem_cons_self a l)]
    exact ih _ (fun b hb => hag b (List.mem_cons_of_mem a hb)) hc.2.2

theorem chain_unique (next : Nat → Nat) :
    ∀ (l1 l2 : List Nat) (h : Nat), chain next h l1 → chain next h l2 → l1 = l2 := by
  intro l1
  induction l1 with
  | nil =>
    intro l2 h h1 h2
    cases l2 with
    | nil => rfl
    | cons b l2 =>
      simp only [chain] at h1 h2
      exact absurd (h2.1 ▸ h1) h2.2.1
  | cons a l1 ih =>
    intro l2 h h1 h2
    cases l2 with
    | nil =>
      simp only [chain] at h1 h2
      exact absurd (h1.1 ▸ h2) h1.2.1
    | cons b l2 =>
      simp only [chain] at h1 h2
      have hab : a = b := h1.1.symm.trans h2.1
      subst hab
      rw [ih l2 _ h1.2.2 h2.2.2]

theorem chain_suffix (next : Nat → Nat) :
    ∀ (l1 : List Nat) (a : Nat) (l2 : List Nat) (h : Nat),
      chain next h (l1 ++ a :: l2) → chain next a (a :: l2) := by
  intro l1
  induction l1 with
  | nil =>
    intro a l2 h hc
    simp only [List.nil_append, chain] at hc ⊢
    exact ⟨trivial, hc.2.1, hc.2.2⟩
  | cons b l1 ih =>
    intro a l2 h hc
    simp only [List.cons_append, chain] at hc
    exact ih a l2 _ hc.2.2

theorem chain_head_not_mem (next : Nat → Nat) (h a : Nat) (l : List Nat)
    (hc : chain next h (a :: l)) : a ∉ l := by
  intro hmem
  obtain ⟨l1, l2, rfl⟩ := List.append_of_mem hmem
  have h1 : chain next a (a :: (l1 ++ a :: l2)) := by
    simp only [chain] at hc ⊢
    exact ⟨trivial, hc.2.1, hc.2.2⟩
  have h2 : chain next a (a :: l2) := chain_suffix next (a :: l1) a l2 a (by simpa using h1)
  have := congrArg List.length (chain_unique next _ _ a h1 h2)
  simp at this
  omega

theorem chain_ne_zero (next : Nat → Nat) :
    ∀ (l : List Nat) (h : Nat), chain next h l → ∀ a ∈ l, a ≠ 0 := by
  intro l
  induction l with
  | nil => intro h _ a ha; simp at ha
  | cons b l ih =>
    intro h hc a ha
    simp only [chain] at hc
    rcases List.mem_cons.mp ha with rfl | ha
    · exact hc.2.1
    · exact ih _ hc.2.2 a ha

/-! ## C1: `kalloc` pops the head of the free list -/

/-- C1: for every allocator state whose free list is non-empty (the head
pointer is not null), `kalloc` returns the frame at the head, the new head
pointer is that frame's `next`, and no other frame header is touched; so when
the allocator holds the frames `a :: t`, the returned frame is `a` and the
free list afterwards is exactly the previous tail `t`. -/
theorem kalloc_pops_head (E : Ext) (w : World) (hne : w.kmem.freelist ≠ 0) :
    (kalloc E w).val = w.kmem.freelist ∧
    (kalloc E w).world.kmem.freelist = w.kmem.next w.kmem.freelist ∧
    (∀ q, q ≠ w.kmem.freelist → (kalloc E w).world.kmem.next q = w.kmem.next q) ∧
    (∀ a t, w.kmem.holds (a :: t) → (kalloc E w).val = a ∧ (kalloc E w).world.kmem.holds t) := by
  simp only [kalloc, hne, ne_eq, not_false_eq_true, if_true, memsetPage, Kmem.holds]
  refine ⟨trivial, trivial, ?_, ?_⟩
  · intro q hq
    rw [Function.update_noteq hq]
  · intro a t h
    have hna : a ∉ t := chain_head_not_mem _ _ _ _ h
    simp only [chain] at h
    obtain ⟨hh, _, ht⟩ := h
    refine ⟨hh, ?_⟩
    rw [hh]
    apply chain_congr w.kmem.next _ t _ _ ht
    intro b hb
    rw [Function.update_noteq]
    rintro rfl
    exact hna hb

/-- Witness for C1 on the two-frame free list. -/
theorem kalloc_pops_head_witness :
    demoWorld.kmem.holds [0x87fff000, 0x87ffe000] ∧
    (kalloc failExt demoWorld).val = 0x87fff000 ∧
    (kalloc failExt demoWorld).world.kmem.holds [0x87ffe000] :=
  ⟨by decide,
   (kalloc_pops_head failExt demoWorld (by decide)).2.2.2 0x87fff000 [0x87ffe000] (by decide)⟩

/-! ## C2: when `kalloc` returns 0 -/

/-- C2 (counterexample): with an empty free list and no current process
(`myproc()` is 0) `kalloc` returns 0 although `do_page_replacement` was never
invoked. -/
theorem kalloc_null_without_replacement :
    (kalloc failExt idleWorld).val = 0 ∧
    ∀ pid rc, Event.do_page_replacement pid rc ∉ (kalloc failExt idleWorld).trace := by
  refine ⟨by decide, ?_⟩
  intro pid rc
  simp [kalloc, kallocRetry, idleWorld, emptyKmem]

/-- C2 (amended): `kalloc` returns 0 only if the free list was empty on
entry, and then either there is no current process (the replacement policy
is not invoked and the retry finds the list still empty), or
`do_page_replacement` was invoked on the current process and reported
failure, or it reported success and the free list was still empty at the
retry. -/
theorem kalloc_null_only_if (E : Ext) (w : World) (h : (kalloc E w).val = 0) :
    w.kmem.freelist = 0 ∧
    ((w.hasproc = false ∧ (kalloc E w).world = w ∧
        (kalloc E w).trace = [.look 0, .print (.memfull none), .look 0]) ∨
     (w.hasproc = true ∧ (E.do_page_replacement w).1 = 0 ∧
        (kalloc E w).world = (E.do_page_replacement w).2 ∧
        (kalloc E w).trace =
          [.look 0, .print (.memfull (some w.proc.pid)), .do_page_replacement w.proc.pid 0]) ∨
     (w.hasproc = true ∧ (E.do_page_replacement w).1 ≠ 0 ∧
        (E.do_page_replacement w).2.kmem.freelist = 0 ∧
        (kalloc E w).world = (E.do_page_replacement w).2 ∧
        (kalloc E w).trace =
          [.look 0, .print (.memfull (some w.proc.pid)),
           .do_page_replacement w.proc.pid (E.do_page_replacement w).1, .look 0])) := by
  by_cases hr : w.kmem.freelist = 0
  · refine ⟨hr, ?_⟩
    cases hp : w.hasproc with
    | false =>
      left
      simp [kalloc, kallocRetry, hr, hp]
    | true =>
      right
      by_cases hrc : (E.do_page_replacement w).1 = 0
      · left
        simp [kalloc, hr, hp, hrc]
      · right
        have h2 : (E.do_page_replacement w).2.kmem.freelist = 0 := by
          simpa [kalloc, kallocRetry, hr, hp, hrc] using h
        simp [kalloc, kallocRetry, hr, hp, hrc, h2]
  · exfalso
    simp [kalloc, hr] at h

/-- Witness for C2 (amended): the idle CPU with an empty free list. -/
theorem kalloc_null_only_if_witness :
    (kalloc failExt idleWorld).val = 0 ∧ idleWorld.kmem.freelist = 0 :=
  ⟨by decide, (kalloc_null_only_if failExt idleWorld (by decide)).1⟩

/-! ## C3: eviction only after an empty free list, at most once -/

/-- C3: in a call of `kalloc` that finds the free list non-empty the trace is
the single read of the list head (no `do_page_replacement`, no MEMFULL line)
and the process state is untouched; in every call `do_page_replacement` is
invoked at most once, the free list is read at most twice (one retry), and
any invocation of `do_page_replacement` comes directly after a read that
found the list empty and the MEMFULL line. -/
theorem kalloc_evicts_only_when_empty (E : Ext) (w : World) :
    (w.kmem.freelist ≠ 0 →
        (kalloc E w).trace = [.look w.kmem.freelist] ∧ (kalloc E w).world.proc = w.proc ∧
        (∀ ev ∈ (kalloc E w).trace, ev.isReplacement = false ∧ ev.isMemfull = false)) ∧
    (kalloc E w).trace.countP Event.isReplacement ≤ 1 ∧
    (kalloc E w).trace.countP Event.isLook ≤ 2 ∧
    (∀ pre pid rc post, (kalloc E w).trace = pre ++ Event.do_page_replacement pid rc :: post →
        pre = [.look 0, .print (.memfull (some pid))]) := by
  by_cases hr : w.kmem.freelist = 0
  · cases hp : w.hasproc with
    | false =>
      refine ⟨fun h => absurd hr h, ?_, ?_, ?_⟩
      · simp [kalloc, kallocRetry, hr, hp, Event.isReplacement]
      · simp [kalloc, kallocRetry, hr, hp, Event.isLook]
      · intro pre pid rc post h
        exfalso
        have hm : Event.do_page_replacement pid rc ∈ (kalloc E w).trace := by
          rw [h]; simp
        simp [kalloc, kallocRetry, hr, hp] at hm
    | true =>
      refine ⟨fun h => absurd hr h, ?_, ?_, ?_⟩
      · by_cases hrc : (E.do_page_replacement w).1 = 0
        · simp [kalloc, hr, hp, hrc, Event.isReplacement]
        · simp [kalloc, kallocRetry, hr, hp, hrc, Event.isReplacement]
      · by_cases hrc : (E.do_page_replacement w).1 = 0
        · simp [kalloc, hr, hp, hrc, Event.isLook]
        · simp [kalloc, kallocRetry, hr, hp, hrc, Event.isLook]
      · intro pre pid rc post h
        have key : ∃ tl, (kalloc E w).trace =
            [.look 0, .print (.memfull (some w.proc.pid))] ++
              Event.do_page_replacement w.proc.pid (E.do_page_replacement w).1 :: tl ∧
            ∀ ev ∈ tl, ev.isReplacement = false := by
          by_cases hrc : (E.do_page_replacement w).1 = 0
          · exact ⟨[], by simp [kalloc, hr, hp, hrc], by simp⟩
          · exact ⟨[.look (E.do_page_replacement w).2.kmem.freelist],
              by simp [kalloc, kallocRetry, hr, hp, hrc], by simp [Event.isReplacement]⟩
        obtain ⟨tl, htr, htl⟩ := key
        rw [htr] at h
        -- the first replacement event of both decompositions is the same one
        match pre, h with
        | [], h => simp at h
        | [_], h => simp at h
        | [a, b], h =>
          simp only [List.cons_append, List.nil_append, List.cons.injEq] at h
          obtain ⟨h1, h2, h3, _⟩ := h
          cases h3
          rw [← h1, ← h2]
        | a :: b :: c :: rest, h =>
          exfalso
          simp only [List.cons_append, List.nil_append, List.cons.injEq] at h
          obtain ⟨_, _, _, h4⟩ := h
          have : Event.do_page_replacement pid rc ∈ tl := by rw [h4]; simp
          have := htl _ this
          simp [Event.isReplacement] at this
  · refine ⟨fun _ => ?_, ?_, ?_, ?_⟩
    · simp [kalloc, hr, Event.isReplacement, Event.isMemfull]
    · simp [kalloc, hr, Event.isReplacement]
    · simp [kalloc, hr, Event.isLook]
    · intro pre pid rc post h
      exfalso
      have hm : Event.do_page_replacement pid rc ∈ (kalloc E w).trace := by
        rw [h]; simp
      simp [kalloc, hr] at hm

/-! ## C4: `kfree` checks and pushes -/

/-- C4: `kfree(pa)` panics if and only if `pa` is not a multiple of PGSIZE, or
`pa` is below the kernel end, or `pa >= PHYSTOP`; when it panics the allocator
state is unchanged; when it does not panic `pa` is the new head of the free
list and its `next` pointer is the previous head (the previous list is its
tail), no other frame header is touched, and if the allocator held the list
`l` with `pa` not on it, it now holds `pa :: l`. -/
theorem kfree_panics_iff (L : Layout) (pa : Nat) (k : Kmem) :
    ((kfree L pa k).panicked = true ↔ (pa % PGSIZE ≠ 0 ∨ pa < L.kend ∨ pa ≥ L.PHYSTOP)) ∧
    ((kfree L pa k).panicked = true → (kfree L pa k).state = k) ∧
    ((kfree L pa k).panicked = false →
      (kfree L pa k).state.freelist = pa ∧
      (kfree L pa k).state.next pa = k.freelist ∧
      (∀ q, q ≠ pa → (kfree L pa k).state.next q = k.next q) ∧
      (∀ l, k.holds l → pa ∉ l → 0 < L.kend → (kfree L pa k).state.holds (pa :: l))) := by
  by_cases hc : pa % PGSIZE ≠ 0 ∨ pa < L.kend ∨ pa ≥ L.PHYSTOP
  · simp only [kfree, hc, if_true, Outcome.panicked, Outcome.state, true_iff, forall_const,
      true_and]
    simp
  · have hc2 := hc
    simp only [not_or, not_lt, ne_eq, not_not, ge_iff_le, not_le] at hc2
    simp only [kfree, hc, if_false, Outcome.panicked, Outcome.state, memsetPage]
    refine ⟨by simp, by simp, fun _ => ⟨trivial, by simp, ?_, ?_⟩⟩
    · intro q hq
      simp [Function.update_noteq hq]
    · intro l hl hnot hk
      simp only [Kmem.holds, chain, Function.update_same]
      refine ⟨trivial, by omega, ?_⟩
      apply chain_congr k.next _ l _ _ hl
      intro b hb
      have hbne : b ≠ pa := by rintro rfl; exact hnot hb
      simp [Function.update_noteq hbne]

/-! ## C5: a double free is not detected -/

/-- C5 (counterexample): with the free list 0x87fff000, 0x87ffe000, freeing
the frame 0x87ffe000 that is already on the list does not panic; the frame
becomes the head again and the two frames now point at each other. -/
theorem kfree_double_free_no_panic :
    demoKmem.holds [0x87fff000, 0x87ffe000] ∧
    (kfree demoLayout 0x87ffe000 demoKmem).panicked = false ∧
    (kfree demoLayout 0x87ffe000 demoKmem).state.freelist = 0x87ffe000 ∧
    (kfree demoLayout 0x87ffe000 demoKmem).state.next 0x87ffe000 = 0x87fff000 ∧
    (kfree demoLayout 0x87ffe000 demoKmem).state.next 0x87fff000 = 0x87ffe000 := by
  decide

theorem chain_reaches (next next2 : Nat → Nat) (pa : Nat)
    (hag : ∀ q, q ≠ pa → next2 q = next q) :
    ∀ (l : List Nat) (h : Nat) (m : List Nat), chain next h l → pa ∈ l → chain next2 h m →
      ∃ m1 m2, m = m1 ++ m2 ∧ chain next2 pa m2 := by
  intro l
  induction l with
  | nil => intro h m _ hmem; simp at hmem
  | cons b l ih =>
    intro h m hc hmem hm
    simp only [chain] at hc
    obtain ⟨hb, hb0, hrest⟩ := hc
    subst hb
    by_cases hbp : h = pa
    · subst hbp
      exact ⟨[], m, rfl, hm⟩
    · have hmem2 : pa ∈ l := by
        rcases List.mem_cons.mp hmem with h1 | h1
        · exact absurd h1.symm hbp
        · exact h1
      cases m with
      | nil => simp only [chain] at hm; exact absurd hm hb0
      | cons c mm =>
        simp only [chain] at hm
        obtain ⟨hcb, _, hmm⟩ := hm
        subst hcb
        rw [hag h hbp] at hmm
        obtain ⟨m1, m2, rfl, h2⟩ := ih _ mm hrest hmem2 hmm
        exact ⟨h :: m1, m2, rfl, h2⟩

/-- C5 (amended): a double free is not detected.  For every frame `pa` that is
already on the free list and passes the alignment and range checks, `kfree`
does not panic; it makes `pa` the head again with `pa->next` the previous
head, after which following `next` from the head comes back to `pa`: the
allocator no longer holds any finite list. -/
theorem kfree_double_free (L : Layout) (pa : Nat) (k : Kmem) (l : List Nat)
    (hl : k.holds l) (hpa : pa ∈ l)
    (hal : pa % PGSIZE = 0) (hlo : L.kend ≤ pa) (hhi : pa < L.PHYSTOP) :
    (kfree L pa k).panicked = false ∧
    (kfree L pa k).state.freelist = pa ∧
    (kfree L pa k).state.next pa = k.freelist ∧
    ∀ l2, ¬ (kfree L pa k).state.holds l2 := by
  have hc : ¬ (pa % PGSIZE ≠ 0 ∨ pa < L.kend ∨ pa ≥ L.PHYSTOP) := by
    simp only [not_or, not_lt, ne_eq, not_not, ge_iff_le, not_le]
    exact ⟨hal, hlo, hhi⟩
  have hpa0 : pa ≠ 0 := chain_ne_zero _ _ _ hl pa hpa
  simp only [kfree, hc, if_false, Outcome.panicked, Outcome.state, memsetPage, Kmem.holds]
  refine ⟨trivial, trivial, by simp, ?_⟩
  intro l2 h2
  have hag : ∀ q, q ≠ pa →
      Function.update (Function.update k.next pa (fillWord 1)) pa k.freelist q = k.next q := by
    intro q hq
    simp [Function.update_noteq hq]
  cases l2 with
  | nil => simp only [chain] at h2; exact hpa0 h2
  | cons c m =>
    have h2c := h2
    simp only [chain] at h2
    obtain ⟨hcp, _, hm⟩ := h2
    subst hcp
    rw [Function.update_same] at hm
    obtain ⟨m1, m2, hsplit, hm2⟩ := chain_reaches k.next _ pa hag l k.freelist m hl hpa hm
    have := congrArg List.length (chain_unique _ _ _ pa hm2 h2c)
    rw [hsplit] at this
    simp at this
    omega

/-- Witness for C5 (amended): the second frame of the two-frame list. -/
theorem kfree_double_free_witness :
    demoKmem.holds [0x87fff000, 0x87ffe000] ∧
    (kfree demoLayout 0x87ffe000 demoKmem).panicked = false ∧
    ∀ l2, ¬ (kfree demoLayout 0x87ffe000 demoKmem).state.holds l2 :=
  ⟨by decide,
   (kfree_double_free demoLayout 0x87ffe000 demoKmem [0x87fff000, 0x87ffe000]
      (by decide) (by decide) (by decide) (by decide) (by decide)).1,
   (kfree_double_free demoLayout 0x87ffe000 demoKmem [0x87fff000, 0x87ffe000]
      (by decide) (by decide) (by decide) (by decide) (by decide)).2.2.2⟩

/-! ## C6: dispatch of the page-fault handler on the leaf PTE -/

theorem kalloc_quiet (E : Ext) (w : World) :
    (kalloc E w).trace.all Event.quiet = true := by
  by_cases hr : w.kmem.freelist = 0
  · cases hp : w.hasproc with
    | false => simp [kalloc, kallocRetry, hr, hp, Event.quiet, Event.isVmfault, Event.isKillInvalid]
    | true =>
      by_cases hrc : (E.do_page_replacement w).1 = 0
      · simp [kalloc, hr, hp, hrc, Event.quiet, Event.isVmfault, Event.isKillInvalid]
      · simp [kalloc, kallocRetry, hr, hp, hrc, Event.quiet, Event.isVmfault, Event.isKillInvalid]
  · simp [kalloc, hr, Event.quiet, Event.isVmfault, Event.isKillInvalid]

theorem freeAndKill_trace (L : Layout) (mem : Nat) (w : World) (before : List Event) :
    (freeAndKill L mem w before).trace =
      before ++ Event.kfree mem :: (if (kfree L mem w.kmem).panicked then [] else [Event.setkilled]) := by
  unfold freeAndKill
  cases kfree L mem w.kmem with
  | ok k => simp [Outcome.panicked]
  | panic msg k => simp [Outcome.panicked]

theorem swapInPath_quiet (L : Layout) (M : Macros) (E : Ext) (va : Nat) (access : Access)
    (e : Nat) (w : World) :
    (swapInPath L M E va access e w).trace.all Event.quiet = true := by
  have hk := kalloc_quiet E w
  unfold swapInPath
  simp only []
  repeat' split
  all_goals
    simp only [freeAndKill_trace, List.all_append, List.all_cons, List.all_nil, hk, Event.quiet,
      Event.isVmfault, Event.isKillInvalid, List.append_assoc, List.cons_append, List.nil_append]
  all_goals first
    | rfl
    | (split_ifs <;> simp [Event.quiet, Event.isVmfault, Event.isKillInvalid])

theorem quiet_no_vmfault_no_kill (tr : List Event) (h : tr.all Event.quiet = true) :
    tr.any Event.isKillInvalid = false ∧ tr.any Event.isVmfault = false := by
  rw [List.all_eq_true] at h
  constructor
  · rw [List.any_eq_false]
    intro ev hev
    have := h ev hev
    simp only [Event.quiet, Bool.and_eq_true, Bool.not_eq_true'] at this
    simp [this.2]
  · rw [List.any_eq_false]
    intro ev hev
    have := h ev hev
    simp only [Event.quiet, Bool.and_eq_true, Bool.not_eq_true'] at this
    simp [this.1]

theorem swapInPath_head (L : Layout) (M : Macros) (E : Ext) (va : Nat) (access : Access)
    (e : Nat) (w : World) :
    (swapInPath L M E va access e w).trace.any Event.isSwapFault = true := by
  unfold swapInPath
  simp only []
  repeat' split
  all_goals
    simp only [freeAndKill_trace, List.any_append, List.any_cons, List.append_assoc,
      List.cons_append, List.nil_append, Event.isSwapFault, Bool.true_or]

theorem freshCause_kinds (p : Proc) (va : Nat) :
    freshCause p va = .heap ∨ freshCause p va = .stack ∨ freshCause p va = .exec := by
  unfold freshCause
  split_ifs <;> simp

theorem usertrap_swap_arm (L : Layout) (M : Macros) (E : Ext) (scause stval : Nat) (w : World)
    (e : Nat) (hpte : w.proc.pagetable (PGROUNDDOWN stval) = some e)
    (hV : e &&& PTE_V = 0) (hS : e &&& M.PTE_S ≠ 0) :
    usertrap_pagefault L M E scause stval w =
      swapInPath L M E (PGROUNDDOWN stval) (accessType scause) e w := by
  simp [usertrap_pagefault, walk, hpte, hV, hS]

theorem usertrap_invalid_arm (L : Layout) (M : Macros) (E : Ext) (scause stval : Nat) (w : World)
    (h : w.proc.pagetable (PGROUNDDOWN stval) = none ∨
        ∃ e, w.proc.pagetable (PGROUNDDOWN stval) = some e ∧ e &&& PTE_V ≠ 0) :
    usertrap_pagefault L M E scause stval w =
      { world := .ok (setkilled w),
        trace := [.print (.pagefault w.proc.pid (PGROUNDDOWN stval) (accessType scause) .invalid),
                  .print (.killInvalidAccess w.proc.pid (PGROUNDDOWN stval) (accessType scause)),
                  .setkilled] } := by
  rcases h with h | ⟨e, h, hV⟩
  · simp [usertrap_pagefault, walk, h, invalidPath]
  · simp [usertrap_pagefault, walk, h, invalidPath, hV]

theorem usertrap_fresh_arm (L : Layout) (M : Macros) (E : Ext) (scause stval : Nat) (w : World)
    (e : Nat) (hpte : w.proc.pagetable (PGROUNDDOWN stval) = some e)
    (hV : e &&& PTE_V = 0) (hS : e &&& M.PTE_S = 0) :
    (usertrap_pagefault L M E scause stval w).trace =
        Event.print (.pagefault w.proc.pid (PGROUNDDOWN stval) (accessType scause)
            (freshCause w.proc (PGROUNDDOWN stval))) ::
          Event.vmfault (PGROUNDDOWN stval) (if scause = 13 then 1 else 0)
            (E.vmfault (PGROUNDDOWN stval) (if scause = 13 then 1 else 0) w).1 ::
          (if (E.vmfault (PGROUNDDOWN stval) (if scause = 13 then 1 else 0) w).1 = 0
            then [Event.setkilled] else []) ∧
    (usertrap_pagefault L M E scause stval w).world =
        .ok (if (E.vmfault (PGROUNDDOWN stval) (if scause = 13 then 1 else 0) w).1 = 0
          then setkilled (E.vmfault (PGROUNDDOWN stval) (if scause = 13 then 1 else 0) w).2
          else (E.vmfault (PGROUNDDOWN stval) (if scause = 13 then 1 else 0) w).2) := by
  simp only [usertrap_pagefault, walk, hpte, freshPath, hV, hS]
  split_ifs <;> simp_all

/-- C6: the dispatch of the page-fault handler on the leaf PTE is total and
exclusive.  If the PTE exists with V=0 and S=1 the handler runs the swap-in
arm.  If the PTE does not exist or has V=1 the handler prints PAGEFAULT
cause=invalid and KILL invalid-access, marks the process killed and does
nothing else (the allocator is untouched).  Otherwise (PTE exists, V=0, S=0)
it prints PAGEFAULT with a fresh-page cause and calls `vmfault`.  In every
case exactly one of the three marks appears in the trace: a cause=swap line,
a KILL invalid-access line, a call of `vmfault`. -/
theorem pagefault_dispatch (L : Layout) (M : Macros) (E : Ext) (scause stval : Nat) (w : World) :
    (∀ e, w.proc.pagetable (PGROUNDDOWN stval) = some e → e &&& PTE_V = 0 → e &&& M.PTE_S ≠ 0 →
      usertrap_pagefault L M E scause stval w =
        swapInPath L M E (PGROUNDDOWN stval) (accessType scause) e w) ∧
    ((w.proc.pagetable (PGROUNDDOWN stval) = none ∨
        ∃ e, w.proc.pagetable (PGROUNDDOWN stval) = some e ∧ e &&& PTE_V ≠ 0) →
      (usertrap_pagefault L M E scause stval w).world = .ok (setkilled w) ∧
      (usertrap_pagefault L M E scause stval w).trace =
        [.print (.pagefault w.proc.pid (PGROUNDDOWN stval) (accessType scause) .invalid),
         .print (.killInvalidAccess w.proc.pid (PGROUNDDOWN stval) (accessType scause)),
         .setkilled]) ∧
    (∀ e, w.proc.pagetable (PGROUNDDOWN stval) = some e → e &&& PTE_V = 0 → e &&& M.PTE_S = 0 →
      (usertrap_pagefault L M E scause stval w).trace =
        Event.print (.pagefault w.proc.pid (PGROUNDDOWN stval) (accessType scause)
            (freshCause w.proc (PGROUNDDOWN stval))) ::
          Event.vmfault (PGROUNDDOWN stval) (if scause = 13 then 1 else 0)
            (E.vmfault (PGROUNDDOWN stval) (if scause = 13 then 1 else 0) w).1 ::
          (if (E.vmfault (PGROUNDDOWN stval) (if scause = 13 then 1 else 0) w).1 = 0
            then [Event.setkilled] else []) ∧
      (usertrap_pagefault L M E scause stval w).world =
        .ok (if (E.vmfault (PGROUNDDOWN stval) (if scause = 13 then 1 else 0) w).1 = 0
          then setkilled (E.vmfault (PGROUNDDOWN stval) (if scause = 13 then 1 else 0) w).2
          else (E.vmfault (PGROUNDDOWN stval) (if scause = 13 then 1 else 0) w).2)) ∧
    (((usertrap_pagefault L M E scause stval w).trace.any Event.isSwapFault = true ∧
      (usertrap_pagefault L M E scause stval w).trace.any Event.isKillInvalid = false ∧
      (usertrap_pagefault L M E scause stval w).trace.any Event.isVmfault = false) ∨
     ((usertrap_pagefault L M E scause stval w).trace.any Event.isSwapFault = false ∧
      (usertrap_pagefault L M E scause stval w).trace.any Event.isKillInvalid = true ∧
      (usertrap_pagefault L M E scause stval w).trace.any Event.isVmfault = false) ∨
     ((usertrap_pagefault L M E scause stval w).trace.any Event.isSwapFault = false ∧
      (usertrap_pagefault L M E scause stval w).trace.any Event.isKillInvalid = false ∧
      (usertrap_pagefault L M E scause stval w).trace.any Event.isVmfault = true)) := by
  refine ⟨fun e hpte hV hS => usertrap_swap_arm L M E scause stval w e hpte hV hS,
    fun h => by rw [usertrap_invalid_arm L M E scause stval w h]; exact ⟨rfl, rfl⟩,
    fun e hpte hV hS => usertrap_fresh_arm L M E scause stval w e hpte hV hS, ?_⟩
  cases hpte : w.proc.pagetable (PGROUNDDOWN stval) with
  | none =>
    right; left
    rw [usertrap_invalid_arm L M E scause stval w (Or.inl hpte)]
    simp [Event.isSwapFault, Event.isKillInvalid, Event.isVmfault]
  | some e =>
    by_cases hV : e &&& PTE_V = 0
    · by_cases hS : e &&& M.PTE_S = 0
      · right; right
        rw [(usertrap_fresh_arm L M E scause stval w e hpte hV hS).1]
        rcases freshCause_kinds w.proc (PGROUNDDOWN stval) with hc | hc | hc <;>
          split_ifs <;>
          simp [hc, Event.isSwapFault, Event.isKillInvalid, Event.isVmfault]
      · left
        rw [usertrap_swap_arm L M E scause stval w e hpte hV hS]
        exact ⟨swapInPath_head _ _ _ _ _ _ _,
          quiet_no_vmfault_no_kill _ (swapInPath_quiet _ _ _ _ _ _ _)⟩
    · right; left
      rw [usertrap_invalid_arm L M E scause stval w (Or.inr ⟨e, hpte, hV⟩)]
      simp [Event.isSwapFault, Event.isKillInvalid, Event.isVmfault]

/-! ## C7: faults at or above `p->sz` -/

/-- C7 (counterexample): a write fault at 0x5008, above `sz = 0x4000`, in a
process whose leaf page-table page covers the address with an empty PTE: the
handler prints PAGEFAULT cause=heap and calls `vmfault`; no cause=invalid
and no KILL invalid-access line is printed. -/
theorem fault_above_sz_logged_as_heap :
    demoWorld.proc.sz ≤ PGROUNDDOWN 0x5008 ∧
    (usertrap_pagefault demoLayout demoMacros failExt 15 0x5008 demoWorld).trace =
      [.print (.pagefault 3 0x5000 .write .heap), .vmfault 0x5000 0 0, .setkilled] := by
  decide

/-- C7 (amended): for a page fault whose page-aligned address `va` satisfies
`va >= p->sz`, the handler classifies the access as invalid (PAGEFAULT
cause=invalid, then KILL invalid-access, process marked killed) when the leaf
PTE does not exist or has V=1.  When the leaf PTE exists with V=0 and S=0 the
fault is printed with cause stack (if `sp <= va < sp + PGSIZE`), else exec
(if `va < exe_end`), else heap, and handed to `vmfault`; no KILL line is
printed and the handler calls `setkilled` exactly when `vmfault` returns 0.
When the leaf PTE exists with V=0 and S=1 the swap-in arm runs. -/
theorem fault_above_sz (L : Layout) (M : Macros) (E : Ext) (scause stval : Nat) (w : World)
    (h : w.proc.sz ≤ PGROUNDDOWN stval) :
    ((w.proc.pagetable (PGROUNDDOWN stval) = none ∨
        ∃ e, w.proc.pagetable (PGROUNDDOWN stval) = some e ∧ e &&& PTE_V ≠ 0) →
      (usertrap_pagefault L M E scause stval w).world = .ok (setkilled w) ∧
      (usertrap_pagefault L M E scause stval w).trace =
        [.print (.pagefault w.proc.pid (PGROUNDDOWN stval) (accessType scause) .invalid),
         .print (.killInvalidAccess w.proc.pid (PGROUNDDOWN stval) (accessType scause)),
         .setkilled]) ∧
    (∀ e, w.proc.pagetable (PGROUNDDOWN stval) = some e → e &&& PTE_V = 0 → e &&& M.PTE_S = 0 →
      (usertrap_pagefault L M E scause stval w).trace =
        Event.print (.pagefault w.proc.pid (PGROUNDDOWN stval) (accessType scause)
            (if w.proc.sp ≤ PGROUNDDOWN stval ∧ PGROUNDDOWN stval < (w.proc.sp + PGSIZE) % 2 ^ 64
              then .stack
              else if PGROUNDDOWN stval < w.proc.exe_end then .exec else .heap)) ::
          Event.vmfault (PGROUNDDOWN stval) (if scause = 13 then 1 else 0)
            (E.vmfault (PGROUNDDOWN stval) (if scause = 13 then 1 else 0) w).1 ::
          (if (E.vmfault (PGROUNDDOWN stval) (if scause = 13 then 1 else 0) w).1 = 0
            then [Event.setkilled] else []) ∧
      (usertrap_pagefault L M E scause stval w).trace.any Event.isKillInvalid = false ∧
      (usertrap_pagefault L M E scause stval w).world =
        .ok (if (E.vmfault (PGROUNDDOWN stval) (if scause = 13 then 1 else 0) w).1 = 0
          then setkilled (E.vmfault (PGROUNDDOWN stval) (if scause = 13 then 1 else 0) w).2
          else (E.vmfault (PGROUNDDOWN stval) (if scause = 13 then 1 else 0) w).2)) ∧
    (∀ e, w.proc.pagetable (PGROUNDDOWN stval) = some e → e &&& PTE_V = 0 → e &&& M.PTE_S ≠ 0 →
      usertrap_pagefault L M E scause stval w =
        swapInPath L M E (PGROUNDDOWN stval) (accessType scause) e w) := by
  refine ⟨fun h => by rw [usertrap_invalid_arm L M E scause stval w h]; exact ⟨rfl, rfl⟩,
    ?_, fun e hpte hV hS => usertrap_swap_arm L M E scause stval w e hpte hV hS⟩
  intro e hpte hV hS
  have hf := usertrap_fresh_arm L M E scause stval w e hpte hV hS
  have hc : freshCause w.proc (PGROUNDDOWN stval) =
      (if w.proc.sp ≤ PGROUNDDOWN stval ∧ PGROUNDDOWN stval < (w.proc.sp + PGSIZE) % 2 ^ 64
        then Cause.stack
        else if PGROUNDDOWN stval < w.proc.exe_end then Cause.exec else Cause.heap) := by
    unfold freshCause
    have : ¬ (PGROUNDDOWN stval ≥ w.proc.exe_end ∧ PGROUNDDOWN stval < w.proc.sz) := by
      intro hh; omega
    simp only [this, if_false, ge_iff_le]
  rw [hc] at hf
  refine ⟨hf.1, ?_, hf.2⟩
  rw [hf.1]
  split_ifs <;> simp [Event.isKillInvalid]

/-- Witness for C7 (amended): the fault at 0x5008 above `sz = 0x4000`. -/
theorem fault_above_sz_witness :
    demoWorld.proc.sz ≤ PGROUNDDOWN 0x5008 ∧
    (usertrap_pagefault demoLayout demoMacros failExt 15 0x5008 demoWorld).trace.any
      Event.isKillInvalid = false :=
  ⟨by decide,
   ((fault_above_sz demoLayout demoMacros failExt 15 0x5008 demoWorld (by decide)).2.1 0
      (by decide) (by decide) (by decide)).2.1⟩

/-! ## C8: faults on the null page -/

/-- C8 (counterexample): an instruction fetch at address 0 in a process whose
text starts at 0 (`exe_end = 0x1000`) and whose page 0 is not yet loaded (the
leaf PTE exists and is 0).  Whatever `vmfault` does, the handler prints
PAGEFAULT with cause=exec, calls `vmfault` and prints no KILL invalid-access
line.  When `vmfault` succeeds the process is not marked killed; when it
refuses, the process is killed without the reason invalid-access. -/
theorem null_page_fault_not_invalid :
    PGROUNDDOWN 0 = 0 ∧
    demoWorld.proc.pagetable 0 = some 0 ∧
    (∀ E : Ext,
      (usertrap_pagefault demoLayout demoMacros E 12 0 demoWorld).trace.head? =
        some (.print (.pagefault 3 0 .exec .exec)) ∧
      (usertrap_pagefault demoLayout demoMacros E 12 0 demoWorld).trace.any
        Event.isVmfault = true ∧
      (usertrap_pagefault demoLayout demoMacros E 12 0 demoWorld).trace.any
        Event.isKillInvalid = false) ∧
    (usertrap_pagefault demoLayout demoMacros okExt 12 0 demoWorld).trace =
      [.print (.pagefault 3 0 .exec .exec), .vmfault 0 0 0x87ffd000] ∧
    (usertrap_pagefault demoLayout demoMacros okExt 12 0 demoWorld).world.panicked = false ∧
    (usertrap_pagefault demoLayout demoMacros okExt 12 0 demoWorld).world.state.proc.killed
      = false ∧
    (usertrap_pagefault demoLayout demoMacros failExt 12 0 demoWorld).trace =
      [.print (.pagefault 3 0 .exec .exec), .vmfault 0 0 0, .setkilled] := by
  refine ⟨by decide, by decide, ?_, by decide, by decide, by decide, by decide⟩
  intro E
  have hf := (usertrap_fresh_arm demoLayout demoMacros E 12 0 demoWorld 0 (by decide)
    (by decide) (by decide)).1
  have hc : freshCause demoWorld.proc (PGROUNDDOWN 0) = .exec := by decide
  have hz : PGROUNDDOWN 0 = 0 := by decide
  have hp : demoWorld.proc.pid = 3 := rfl
  have ha : accessType 12 = .exec := by decide
  rw [hc, hz, hp, ha] at hf
  rw [hf]
  refine ⟨rfl, ?_, ?_⟩
  · simp [Event.isVmfault]
  · split_ifs <;> simp [Event.isKillInvalid]

/-- C8 (amended): the handler has no test for the null page; a fault whose
page-aligned address is 0 is dispatched on the leaf PTE of page 0 like any
other.  A KILL invalid-access line is printed exactly when that PTE does not
exist or has V=1 (as for a store to the resident text page), and then the
process is marked killed and nothing else happens.  When the PTE exists with
V=0 and S=0 the fault is printed with a fresh-page cause (exec when
`0 < exe_end` and `0 < sp`) and handed to `vmfault`, and the handler calls
`setkilled` exactly when `vmfault` returns 0.  When the PTE exists with V=0
and S=1 the swap-in arm runs on page 0. -/
theorem null_page_fault (L : Layout) (M : Macros) (E : Ext) (scause stval : Nat) (w : World)
    (h0 : PGROUNDDOWN stval = 0) :
    ((usertrap_pagefault L M E scause stval w).trace.any Event.isKillInvalid = true ↔
      (w.proc.pagetable 0 = none ∨ ∃ e, w.proc.pagetable 0 = some e ∧ e &&& PTE_V ≠ 0)) ∧
    ((w.proc.pagetable 0 = none ∨ ∃ e, w.proc.pagetable 0 = some e ∧ e &&& PTE_V ≠ 0) →
      (usertrap_pagefault L M E scause stval w).world = .ok (setkilled w) ∧
      (usertrap_pagefault L M E scause stval w).trace =
        [.print (.pagefault w.proc.pid 0 (accessType scause) .invalid),
         .print (.killInvalidAccess w.proc.pid 0 (accessType scause)),
         .setkilled]) ∧
    (∀ e, w.proc.pagetable 0 = some e → e &&& PTE_V = 0 → e &&& M.PTE_S = 0 →
      (usertrap_pagefault L M E scause stval w).trace =
        Event.print (.pagefault w.proc.pid 0 (accessType scause) (freshCause w.proc 0)) ::
          Event.vmfault 0 (if scause = 13 then 1 else 0)
            (E.vmfault 0 (if scause = 13 then 1 else 0) w).1 ::
          (if (E.vmfault 0 (if scause = 13 then 1 else 0) w).1 = 0
            then [Event.setkilled] else []) ∧
      (usertrap_pagefault L M E scause stval w).world =
        .ok (if (E.vmfault 0 (if scause = 13 then 1 else 0) w).1 = 0
          then setkilled (E.vmfault 0 (if scause = 13 then 1 else 0) w).2
          else (E.vmfault 0 (if scause = 13 then 1 else 0) w).2) ∧
      (0 < w.proc.exe_end → 0 < w.proc.sp → freshCause w.proc 0 = .exec)) ∧
    (∀ e, w.proc.pagetable 0 = some e → e &&& PTE_V = 0 → e &&& M.PTE_S ≠ 0 →
      usertrap_pagefault L M E scause stval w =
        swapInPath L M E 0 (accessType scause) e w) := by
  have hinv := usertrap_invalid_arm L M E scause stval w
  have hfresh := usertrap_fresh_arm L M E scause stval w
  have hswap := usertrap_swap_arm L M E scause stval w
  rw [h0] at hinv hfresh hswap
  have hcause : 0 < w.proc.exe_end → 0 < w.proc.sp → freshCause w.proc 0 = .exec := by
    intro h1 h2
    unfold freshCause
    have c1 : ¬ (0 ≥ w.proc.exe_end ∧ 0 < w.proc.sz) := by omega
    have c2 : ¬ (0 ≥ w.proc.sp ∧ 0 < (w.proc.sp + PGSIZE) % 2 ^ 64) := by omega
    rw [if_neg c1, if_neg c2, if_pos h1]
  refine ⟨?_, fun h => by rw [hinv h]; exact ⟨rfl, rfl⟩, ?_, hswap⟩
  · constructor
    · intro hk
      by_contra hno
      have hnone : w.proc.pagetable 0 ≠ none := fun h => hno (Or.inl h)
      obtain ⟨e, he⟩ := Option.ne_none_iff_exists'.mp hnone
      have hV : e &&& PTE_V = 0 := by
        by_contra hv
        exact hno (Or.inr ⟨e, he, hv⟩)
      by_cases hS : e &&& M.PTE_S = 0
      · rw [(hfresh e he hV hS).1] at hk
        revert hk
        split_ifs <;> simp [Event.isKillInvalid]
      · rw [hswap e he hV hS] at hk
        have hq := (quiet_no_vmfault_no_kill _
          (swapInPath_quiet L M E 0 (accessType scause) e w)).1
        rw [hq] at hk
        exact absurd hk (by simp)
    · intro h
      rw [hinv h]
      simp [Event.isKillInvalid]
  · intro e he hV hS
    exact ⟨(hfresh e he hV hS).1, (hfresh e he hV hS).2, hcause⟩

/-- Witness for C8 (amended): a store to address 8 once the text page at 0 is
resident is killed as invalid-access. -/
theorem null_page_fault_witness :
    PGROUNDDOWN 8 = 0 ∧
    (usertrap_pagefault demoLayout demoMacros okExt 15 8 textWorld).trace.any
      Event.isKillInvalid = true ∧
    (usertrap_pagefault demoLayout demoMacros okExt 15 8 textWorld).trace =
      [.print (.pagefault 3 0 .write .invalid), .print (.killInvalidAccess 3 0 .write),
       .setkilled] :=
  ⟨by decide,
   (null_page_fault demoLayout demoMacros okExt 15 8 textWorld (by decide)).1.mpr
     (Or.inr ⟨PA2PTE 0x87ffd000 ||| (PTE_R ||| PTE_X ||| PTE_U) ||| PTE_V, by decide, by decide⟩),
   ((null_page_fault demoLayout demoMacros okExt 15 8 textWorld (by decide)).2.1
     (Or.inr ⟨PA2PTE 0x87ffd000 ||| (PTE_R ||| PTE_X ||| PTE_U) ||| PTE_V, by decide,
       by decide⟩)).2⟩

/-! ## C9: a successful swap-in -/

theorem testBit_30 (i : Nat) : Nat.testBit 30 i = decide (1 ≤ i ∧ i ≤ 4) := by
  by_cases hi : i < 5
  · interval_cases i <;> decide
  · have h30 : Nat.testBit 30 i = false :=
      Nat.testBit_lt_two_pow (lt_of_lt_of_le (by norm_num : 30 < 2 ^ 5)
        (Nat.pow_le_pow_right (by norm_num) (not_lt.mp hi)))
    rw [h30]
    symm
    simp
    omega

theorem testBit_1 (i : Nat) : Nat.testBit 1 i = decide (i = 0) := by
  have := @Nat.testBit_two_pow 0 i
  simpa [eq_comm] using this

theorem testBit_256 (i : Nat) : Nat.testBit 256 i = decide (i = 8) := by
  have := @Nat.testBit_two_pow 8 i
  simpa [eq_comm] using this

theorem testBit_512 (i : Nat) : Nat.testBit 512 i = decide (i = 9) := by
  have := @Nat.testBit_two_pow 9 i
  simpa [eq_comm] using this

theorem pte_perms (A e : Nat) : (A <<< 10 ||| (e &&& 30 ||| 1) ||| 1) &&& 30 = e &&& 30 := by
  apply Nat.eq_of_testBit_eq
  intro i
  simp only [Nat.testBit_and, Nat.testBit_or, Nat.testBit_shiftLeft, testBit_30, testBit_1]
  by_cases h1 : 1 ≤ i ∧ i ≤ 4
  · have h10 : ¬ (i ≥ 10) := by omega
    have h0 : i ≠ 0 := by omega
    simp [h1, h10, h0]
  · simp [h1]

theorem pte_no_256 (A e : Nat) : (A <<< 10 ||| (e &&& 30 ||| 1) ||| 1) &&& 256 = 0 := by
  apply Nat.eq_of_testBit_eq
  intro i
  simp only [Nat.testBit_and, Nat.testBit_or, Nat.testBit_shiftLeft, Nat.zero_testBit,
    testBit_30, testBit_1, testBit_256]
  by_cases h1 : i = 8
  · subst h1; simp
  · simp [h1]

theorem pte_no_512 (A e : Nat) : (A <<< 10 ||| (e &&& 30 ||| 1) ||| 1) &&& 512 = 0 := by
  apply Nat.eq_of_testBit_eq
  intro i
  simp only [Nat.testBit_and, Nat.testBit_or, Nat.testBit_shiftLeft, Nat.zero_testBit,
    testBit_30, testBit_1, testBit_512]
  by_cases h1 : i = 9
  · subst h1; simp
  · simp [h1]

theorem pte_valid (A e : Nat) : (A <<< 10 ||| (e &&& 30 ||| 1) ||| 1) &&& 1 ≠ 0 := by
  intro h
  have := congrArg (fun x => Nat.testBit x 0) h
  simp at this

theorem pte_frame (A e : Nat) : (A <<< 10 ||| (e &&& 30 ||| 1) ||| 1) >>> 10 = A := by
  apply Nat.eq_of_testBit_eq
  intro i
  simp only [Nat.testBit_and, Nat.testBit_or, Nat.testBit_shiftLeft, Nat.testBit_shiftRight,
    testBit_30, testBit_1]
  have h1 : ¬ (1 ≤ 10 + i ∧ 10 + i ≤ 4) := by omega
  simp [h1]

theorem mappages_after_clear (va pa perm : Nat) (w : World) :
    mappages va PGSIZE pa perm (setPte va 0 w) =
      (0, setPte va (PA2PTE pa ||| perm ||| PTE_V) w) := by
  simp [mappages, mappagesLoop, setPte, PGSIZE]

theorem kalloc_proc (E : Ext) (w : World) :
    (kalloc E w).world.proc = w.proc ∨
    (w.kmem.freelist = 0 ∧ (kalloc E w).world.proc = (E.do_page_replacement w).2.proc) := by
  by_cases hr : w.kmem.freelist = 0
  · cases hp : w.hasproc with
    | false =>
      left
      simp [kalloc, kallocRetry, hr, hp]
    | true =>
      right
      refine ⟨hr, ?_⟩
      by_cases hrc : (E.do_page_replacement w).1 = 0
      · simp [kalloc, hr, hp, hrc]
      · simp only [kalloc, kallocRetry, hr, hp, hrc, ne_eq, not_true_eq_false, if_false, if_true]
        split_ifs <;> rfl
  · left
    simp [kalloc, hr]

theorem fifoReplacement_keeps (L : Layout) (M : Macros) (nslots : Nat) (writeOk : Bool)
    (va : Nat) (slot : Int) (w : World) :
    (fifoReplacement L M nslots writeOk w).2.proc.fifo_seq_num = w.proc.fifo_seq_num ∧
    (∀ e, w.proc.pagetable va = some e → e &&& PTE_V = 0 →
      (fifoReplacement L M nslots writeOk w).2.proc.pagetable va = some e) ∧
    (w.proc.swap_slots slot = true →
      (fifoReplacement L M nslots writeOk w).2.proc.swap_slots slot = true) ∧
    (∀ x ∈ (fifoReplacement L M nslots writeOk w).2.proc.resident, x ∈ w.proc.resident) := by
  unfold fifoReplacement
  split
  · exact ⟨rfl, fun _ h _ => h, id, fun _ h => h⟩
  · rename_i victim _
    split
    · exact ⟨rfl, fun _ h _ => h, id, fun _ h => h⟩
    · rename_i e hw
      split
      · exact ⟨rfl, fun _ h _ => h, id, fun _ h => h⟩
      · rename_i hV
        split
        · exact ⟨rfl, fun _ h _ => h, id, fun _ h => h⟩
        · rename_i s _
          split
          · exact ⟨rfl, fun _ h _ => h, id, fun _ h => h⟩
          · refine ⟨rfl, ?_, ?_, ?_⟩
            · intro e2 he2 hV2
              have hne : va ≠ victim.1 := by
                rintro rfl
                simp only [walk] at hw
                rw [hw] at he2
                cases he2
                exact hV hV2
              simp only [Function.update_noteq hne]
              exact he2
            · intro hs
              by_cases hsl : slot = (s : Int)
              · subst hsl; simp
              · simp only [Function.update_noteq hsl]
                exact hs
            · intro x hx
              exact (List.mem_filter.mp hx).1

theorem fifoExt_keeps_seq : ReplKeepsSeq fifoExt :=
  fun w => (fifoReplacement_keeps demoLayout demoMacros 8 true 0 0 w).1

theorem fifoExt_keeps_fault (va : Nat) (slot : Int) : ReplKeepsFault fifoExt va slot :=
  fun w => fifoReplacement_keeps demoLayout demoMacros 8 true va slot w

theorem kalloc_no_add (E : Ext) (w : World) : (kalloc E w).trace.any Event.isAdd = false := by
  by_cases hr : w.kmem.freelist = 0
  · cases hp : w.hasproc with
    | false => simp [kalloc, kallocRetry, hr, hp, Event.isAdd]
    | true =>
      by_cases hrc : (E.do_page_replacement w).1 = 0
      · simp [kalloc, hr, hp, hrc, Event.isAdd]
      · simp [kalloc, kallocRetry, hr, hp, hrc, Event.isAdd]
  · simp [kalloc, hr, Event.isAdd]

theorem freeAndKill_ok (L : Layout) (mem : Nat) (w : World) (before : List Event)
    (hal : mem % PGSIZE = 0) (hlo : L.kend ≤ mem) (hhi : mem < L.PHYSTOP) :
    freeAndKill L mem w before =
      { world := .ok (setkilled { w with kmem :=
          { freelist := mem
            next := Function.update (Function.update w.kmem.next mem (fillWord 1)) mem
              w.kmem.freelist } }),
        trace := before ++ [.kfree mem, .setkilled] } := by
  have hc : ¬ (mem % PGSIZE ≠ 0 ∨ mem < L.kend ∨ mem ≥ L.PHYSTOP) := by
    simp only [not_or, not_lt, ne_eq, not_not, ge_iff_le, not_le]
    exact ⟨hal, hlo, hhi⟩
  simp [freeAndKill, kfree, hc, memsetPage]

/-- C10: when the swap-in arm fails before the slot is released (`kalloc`
returns no frame, or the process has no swap file, or the read of the slot
does not return PGSIZE bytes), the handler ends without panic with the
process marked killed; a frame obtained from `kalloc` is given back with
`kfree` (it is the head of the free list again, in front of the previous
head); the faulting PTE still holds the same word `e` (Swapped, same slot and
permissions); its slot, if allocated before the fault, is still allocated;
`add_to_resident_set` is not called and every entry of the resident set was
there before the fault; the FIFO counter is unchanged.  The frame handed out
by `kalloc` is a frame of the allocator (aligned, in range), and the
replacement policy that `kalloc` may run keeps to section 4.6. -/
theorem swapin_failure_atomic (L : Layout) (M : Macros) (E : Ext) (scause stval : Nat)
    (w : World) (e : Nat)
    (hpte : w.proc.pagetable (PGROUNDDOWN stval) = some e)
    (hV : e &&& PTE_V = 0) (hS : e &&& M.PTE_S ≠ 0)
    (hkeep : ReplKeepsFault E (PGROUNDDOWN stval) (toInt32 (M.PTE_SLOT e)))
    (hvalid : (kalloc E w).val ≠ 0 →
      (kalloc E w).val % PGSIZE = 0 ∧ L.kend ≤ (kalloc E w).val ∧ (kalloc E w).val < L.PHYSTOP)
    (hfail : (kalloc E w).val = 0 ∨ (kalloc E w).world.proc.swap_inode = none ∨
      ∃ ip, (kalloc E w).world.proc.swap_inode = some ip ∧
        (E.readi ip (toU64 (toInt32 (M.PTE_SLOT e)) * PGSIZE % 2 ^ 64) PGSIZE
          (kalloc E w).world).1 ≠ (PGSIZE : Int)) :
    ∃ w' : World,
      (usertrap_pagefault L M E scause stval w).world = .ok w' ∧
      w'.proc.killed = true ∧
      ((kalloc E w).val ≠ 0 →
        Event.kfree (kalloc E w).val ∈ (usertrap_pagefault L M E scause stval w).trace ∧
        w'.kmem.freelist = (kalloc E w).val ∧
        w'.kmem.next (kalloc E w).val = (kalloc E w).world.kmem.freelist) ∧
      w'.proc.pagetable (PGROUNDDOWN stval) = some e ∧
      (w.proc.swap_slots (toInt32 (M.PTE_SLOT e)) = true →
        w'.proc.swap_slots (toInt32 (M.PTE_SLOT e)) = true) ∧
      (usertrap_pagefault L M E scause stval w).trace.any Event.isAdd = false ∧
      (∀ x ∈ w'.proc.resident, x ∈ w.proc.resident) ∧
      w'.proc.fifo_seq_num = w.proc.fifo_seq_num := by
  have hna := kalloc_no_add E w
  -- what kalloc (and the replacement policy it may run) left of the process
  have hP : (kalloc E w).world.proc.pagetable (PGROUNDDOWN stval) = some e ∧
      (w.proc.swap_slots (toInt32 (M.PTE_SLOT e)) = true →
        (kalloc E w).world.proc.swap_slots (toInt32 (M.PTE_SLOT e)) = true) ∧
      (∀ x ∈ (kalloc E w).world.proc.resident, x ∈ w.proc.resident) ∧
      (kalloc E w).world.proc.fifo_seq_num = w.proc.fifo_seq_num := by
    rcases kalloc_proc E w with h | ⟨_, h⟩
    · rw [h]
      exact ⟨hpte, id, fun _ hx => hx, rfl⟩
    · rw [h]
      obtain ⟨k1, k2, k3, k4⟩ := hkeep w
      exact ⟨k2 e hpte hV, k3, k4, k1⟩
  obtain ⟨p1, p2, p3, p4⟩ := hP
  rw [usertrap_swap_arm L M E scause stval w e hpte hV hS]
  by_cases hmem : (kalloc E w).val = 0
  · simp only [swapInPath, hmem, if_true]
    refine ⟨_, rfl, by simp [setkilled], fun h => absurd rfl h, by simpa [setkilled] using p1,
      by simpa [setkilled] using p2, ?_, by simpa [setkilled] using p3,
      by simpa [setkilled] using p4⟩
    simp [List.any_append, hna, Event.isAdd]
  · obtain ⟨hal, hlo, hhi⟩ := hvalid hmem
    rcases hfail with h0 | hnone | ⟨ip, hip, hrd⟩
    · exact absurd h0 hmem
    · simp only [swapInPath, hmem, if_false, hnone, freeAndKill_ok L _ _ _ hal hlo hhi]
      refine ⟨_, rfl, by simp [setkilled], fun _ => ⟨by simp, by simp [setkilled], by simp [setkilled]⟩,
        by simpa [setkilled] using p1, by simpa [setkilled] using p2, ?_,
        by simpa [setkilled] using p3, by simpa [setkilled] using p4⟩
      simp [List.any_append, hna, Event.isAdd]
    · simp only [swapInPath, hmem, if_false, hip, hrd, ne_eq, not_false_eq_true, if_true,
        freeAndKill_ok L _ _ _ hal hlo hhi]
      refine ⟨_, rfl, by simp [setkilled], fun _ => ⟨by simp, by simp [setkilled], by simp [setkilled]⟩,
        by simpa [setkilled] using p1, by simpa [setkilled] using p2, ?_,
        by simpa [setkilled] using p3, by simpa [setkilled] using p4⟩
      simp [List.any_append, hna, Event.isAdd]

/-- Witness for C10: the read fault at 0x2010 on the swapped page when the
process has lost its swap file: the frame 0x87fff000 taken by `kalloc` is
back at the head of the free list, the process is killed and the PTE still
names slot 5. -/
theorem swapin_failure_atomic_witness :
    (kalloc fifoExt lostSwapWorld).val = 0x87fff000 ∧
    ∃ w' : World,
      (usertrap_pagefault demoLayout demoMacros fifoExt 13 0x2010 lostSwapWorld).world = .ok w' ∧
      w'.proc.killed = true ∧
      w'.proc.pagetable 0x2000 = some (5 <<< 10 ||| 0x16 ||| 256) ∧
      w'.proc.fifo_seq_num = 7 := by
  refine ⟨by decide, ?_⟩
  obtain ⟨w', h1, h2, _, h4, _, _, _, h8⟩ :=
    swapin_failure_atomic demoLayout demoMacros fifoExt 13 0x2010 lostSwapWorld
      (5 <<< 10 ||| 0x16 ||| 256) (by decide) (by decide) (by decide)
      (fifoExt_keeps_fault _ _) (fun _ => by decide) (Or.inr (Or.inl (by decide)))
  exact ⟨w', h1, h2, h4, h8⟩

/-! ## C11: the swap-in arm and resident-set room -/

theorem kalloc_fast_trace (E : Ext) (w : World) (hne : w.kmem.freelist ≠ 0) :
    (kalloc E w).trace = [.look w.kmem.freelist] := by
  simp [kalloc, hne]

/-- C12: for every non-negative `n` (an `int`) in lazy mode (`t` is not
SBRK_EAGER), `sys_sbrk` makes no call at all; if `sz + n` overflows 64 bits it
returns -1 (the `uint64` 2^64 - 1) and leaves the kernel state as it was;
otherwise it returns the old `sz` and the new kernel state is the old one with
`sz` replaced by `sz + n`: allocator, page table, resident set, swap bitmap
and FIFO counter are untouched. -/
theorem sbrk_lazy (P : Params) (X : SysExt) (n t : Int) (w : World)
    (hn : 0 ≤ n) (hn32 : n < 2 ^ 31) (ht : t ≠ P.SBRK_EAGER) (hsz : w.proc.sz < 2 ^ 64) :
    (sys_sbrk P X n t w).calls = [] ∧
    (2 ^ 64 ≤ w.proc.sz + n.toNat →
      (sys_sbrk P X n t w).ret = 2 ^ 64 - 1 ∧ (sys_sbrk P X n t w).world = w) ∧
    (w.proc.sz + n.toNat < 2 ^ 64 →
      (sys_sbrk P X n t w).ret = w.proc.sz ∧
      (sys_sbrk P X n t w).world =
        { w with proc := { w.proc with sz := w.proc.sz + n.toNat } }) := by
  have hcond : ¬ (t = P.SBRK_EAGER ∨ n < 0) := by
    intro h
    rcases h with h | h
    · exact ht h
    · omega
  have hu : toU64 n = n.toNat := by
    unfold toU64
    rw [Int.emod_eq_of_lt hn (by omega)]
  simp only [sys_sbrk, hcond, if_false, hu]
  refine ⟨by split_ifs <;> rfl, ?_, ?_⟩
  · intro hov
    have hlt : (w.proc.sz + n.toNat) % 2 ^ 64 < w.proc.sz := by
      have h2 : n.toNat < 2 ^ 64 := by omega
      omega
    rw [if_pos hlt]
    exact ⟨rfl, rfl⟩
  · intro hno
    have hmod : (w.proc.sz + n.toNat) % 2 ^ 64 = w.proc.sz + n.toNat := Nat.mod_eq_of_lt hno
    have hnlt : ¬ (w.proc.sz + n.toNat) % 2 ^ 64 < w.proc.sz := by
      rw [hmod]; omega
    rw [if_neg hnlt, hmod]
    exact ⟨rfl, rfl⟩

/-- Witness for C12: `sbrk(10 * PGSIZE)` in lazy mode on a process of 4 pages. -/
theorem sbrk_lazy_witness :
    (sys_sbrk demoParams demoSys 40960 0 demoWorld).calls = [] ∧
    (sys_sbrk demoParams demoSys 40960 0 demoWorld).ret = 0x4000 ∧
    (sys_sbrk demoParams demoSys 40960 0 demoWorld).world.proc.sz = 0xe000 :=
  ⟨(sbrk_lazy demoParams demoSys 40960 0 demoWorld (by decide) (by decide) (by decide)
      (by decide)).1,
   ((sbrk_lazy demoParams demoSys 40960 0 demoWorld (by decide) (by decide) (by decide)
      (by decide)).2.2 (by decide)).1,
   by decide⟩

/-! ## C13, C14: the record filled by `memstat` -/

theorem count_states (l : List page_stat) :
    l.countP (fun ps => ps.state = .RESIDENT) + l.countP (fun ps => ps.state = .SWAPPED) +
      l.countP (fun ps => ps.state = .UNMAPPED) = l.length := by
  induction l with
  | nil => rfl
  | cons ps l ih =>
    simp only [List.countP_cons, List.length_cons]
    cases hst : ps.state <;> simp <;> omega

theorem memstatLoop_counts (M : Macros) (X : SysExt) (p : Proc) :
    ∀ (room va : Nat) (k : proc_mem_stat),
      k.num_resident_pages = k.pages.countP (fun ps => ps.state = .RESIDENT) →
      k.num_swapped_pages = k.pages.countP (fun ps => ps.state = .SWAPPED) →
      (memstatLoop M X p room va k).num_resident_pages =
          (memstatLoop M X p room va k).pages.countP (fun ps => ps.state = .RESIDENT) ∧
      (memstatLoop M X p room va k).num_swapped_pages =
          (memstatLoop M X p room va k).pages.countP (fun ps => ps.state = .SWAPPED) ∧
      (memstatLoop M X p room va k).num_pages_total = k.num_pages_total := by
  intro room
  induction room with
  | zero => intro va k h1 h2; exact ⟨h1, h2, rfl⟩
  | succ room ih =>
    intro va k h1 h2
    unfold memstatLoop
    split_ifs with hlt
    · have := ih ((va + PGSIZE) % 2 ^ 64)
        { k with
          pages := k.pages ++ [memstatEntry M X p va]
          num_resident_pages :=
            if (memstatEntry M X p va).state = .RESIDENT then k.num_resident_pages + 1
            else k.num_resident_pages
          num_swapped_pages :=
            if (memstatEntry M X p va).state = .SWAPPED then k.num_swapped_pages + 1
            else k.num_swapped_pages }
        (by
          simp only [List.countP_append, List.countP_cons, List.countP_nil, h1]
          split_ifs <;> simp_all)
        (by
          simp only [List.countP_append, List.countP_cons, List.countP_nil, h2]
          split_ifs <;> simp_all)
      exact this
    · exact ⟨h1, h2, rfl⟩

theorem memstatLoop_pages (M : Macros) (X : SysExt) (p : Proc) (hsz : p.sz < 2 ^ 64) :
    ∀ (room i : Nat) (k : proc_mem_stat), room + i ≤ 2 ^ 52 →
      (memstatLoop M X p room (i * PGSIZE) k).pages =
        k.pages ++ memstatEntries M X p i (min room ((p.sz + PGSIZE - 1) / PGSIZE - i)) := by
  intro room
  induction room with
  | zero => intro i k _; simp [memstatLoop, memstatEntries]
  | succ room ih =>
    intro i k hri
    unfold memstatLoop
    split_ifs with hlt
    · have hi : i < (p.sz + PGSIZE - 1) / PGSIZE := by
        simp only [PGSIZE] at hlt ⊢
        omega
      have hmin : min (room + 1) ((p.sz + PGSIZE - 1) / PGSIZE - i) =
          min room ((p.sz + PGSIZE - 1) / PGSIZE - (i + 1)) + 1 := by omega
      rw [hmin]
      by_cases hroom : room = 0
      · subst hroom
        simp [memstatLoop, memstatEntries, List.range'_succ]
      · have hnext : (i * PGSIZE + PGSIZE) % 2 ^ 64 = (i + 1) * PGSIZE := by
          have : (i + 1) * PGSIZE < 2 ^ 64 := by
            simp only [PGSIZE]
            omega
          rw [Nat.mod_eq_of_lt (by rw [Nat.add_mul, Nat.one_mul] at this; exact this)]
          ring
        rw [hnext, ih (i + 1) _ (by omega)]
        simp only [memstatEntries, List.range'_succ, List.map_cons, List.append_assoc,
          List.cons_append, List.nil_append]
    · have hi : ¬ i < (p.sz + PGSIZE - 1) / PGSIZE := by
        simp only [PGSIZE] at hlt ⊢
        omega
      have hmin : min (room + 1) ((p.sz + PGSIZE - 1) / PGSIZE - i) = 0 := by omega
      rw [hmin]
      simp [memstatEntries]

theorem memstatEntry_spec (M : Macros) (X : SysExt) (p : Proc) (va : Nat) :
    (memstatEntry M X p va).va = va ∧
    ((memstatEntry M X p va).state = .RESIDENT ↔
      ∃ e, p.pagetable va = some e ∧ e &&& PTE_V ≠ 0) ∧
    ((memstatEntry M X p va).state = .SWAPPED ↔
      ∃ e, p.pagetable va = some e ∧ e &&& PTE_V = 0 ∧ e &&& M.PTE_S ≠ 0) ∧
    ((memstatEntry M X p va).state = .UNMAPPED ↔
      (p.pagetable va = none ∨
        ∃ e, p.pagetable va = some e ∧ e &&& PTE_V = 0 ∧ e &&& M.PTE_S = 0)) ∧
    (∀ e, p.pagetable va = some e → (memstatEntry M X p va).state = .SWAPPED →
      (memstatEntry M X p va).swap_slot = toInt32 (M.PTE_SLOT e)) ∧
    ((memstatEntry M X p va).state ≠ .SWAPPED → (memstatEntry M X p va).swap_slot = -1) ∧
    ((memstatEntry M X p va).state ≠ .RESIDENT → (memstatEntry M X p va).seq = -1) ∧
    (∀ e, p.pagetable va = some e → (memstatEntry M X p va).state = .RESIDENT →
      (memstatEntry M X p va).is_dirty = if e &&& PTE_D ≠ 0 then 1 else 0) ∧
    ((memstatEntry M X p va).state ≠ .RESIDENT → (memstatEntry M X p va).is_dirty = 0) := by
  unfold memstatEntry walk
  cases hpt : p.pagetable va with
  | none => simp
  | some e =>
    by_cases hV : e &&& PTE_V = 0
    · by_cases hS : e &&& M.PTE_S = 0
      · simp [hV, hS]
      · simp [hV, hS]
    · simp [hV]

theorem sys_memstat_pages (P : Params) (M : Macros) (X : SysExt) (ptr : Nat) (w : World)
    (hsz : w.proc.sz < 2 ^ 64) (hmax : P.MAX_PAGES_INFO ≤ 2 ^ 52) :
    (sys_memstat P M X ptr w).2.pages =
      memstatEntries M X w.proc 0
        (min ((w.proc.sz + PGSIZE - 1) / PGSIZE) P.MAX_PAGES_INFO) := by
  have h := memstatLoop_pages M X w.proc hsz P.MAX_PAGES_INFO 0
    { pid := w.proc.pid, next_fifo_seq := w.proc.fifo_seq_num,
      num_pages_total := w.proc.sz / PGSIZE,
      num_resident_pages := 0, num_swapped_pages := 0, pages := [] } (by omega)
  simp only [Nat.zero_mul, List.nil_append, Nat.sub_zero] at h
  simp only [sys_memstat, h, Nat.min_comm]

theorem sys_memstat_counts (P : Params) (M : Macros) (X : SysExt) (ptr : Nat) (w : World) :
    (sys_memstat P M X ptr w).2.num_resident_pages =
      (sys_memstat P M X ptr w).2.pages.countP (fun ps => ps.state = .RESIDENT) ∧
    (sys_memstat P M X ptr w).2.num_swapped_pages =
      (sys_memstat P M X ptr w).2.pages.countP (fun ps => ps.state = .SWAPPED) ∧
    (sys_memstat P M X ptr w).2.num_pages_total = w.proc.sz / PGSIZE := by
  have h := memstatLoop_counts M X w.proc P.MAX_PAGES_INFO 0
    { pid := w.proc.pid, next_fifo_seq := w.proc.fifo_seq_num,
      num_pages_total := w.proc.sz / PGSIZE,
      num_resident_pages := 0, num_swapped_pages := 0, pages := [] } rfl rfl
  exact h

set_option maxRecDepth 100000 in
/-- C13 (counterexample): for a process of 129 pages (MAX_PAGES_INFO taken as
128) `memstat` reports 128 entries, one RESIDENT, one SWAPPED and 126
UNMAPPED, while `num_pages_total` is 129. -/
theorem memstat_sum_below_total :
    (sys_memstat demoParams demoMacros demoSys 0x3000 bigWorld).2.num_pages_total = 129 ∧
    (sys_memstat demoParams demoMacros demoSys 0x3000 bigWorld).2.num_resident_pages +
      (sys_memstat demoParams demoMacros demoSys 0x3000 bigWorld).2.num_swapped_pages +
      (sys_memstat demoParams demoMacros demoSys 0x3000 bigWorld).2.num_unmapped_pages = 128 := by
  decide

/-- C13 (amended): in the record filled by `memstat` every reported page is
counted in exactly one of the three states, so `num_resident_pages +
num_swapped_pages + num_unmapped_pages` is the number of reported entries;
it equals `num_pages_total` when `sz` is a multiple of PGSIZE and the process
has at most MAX_PAGES_INFO pages. -/
theorem memstat_counts_sum (P : Params) (M : Macros) (X : SysExt) (ptr : Nat) (w : World)
    (hsz : w.proc.sz < 2 ^ 64) (hmax : P.MAX_PAGES_INFO ≤ 2 ^ 52) :
    (sys_memstat P M X ptr w).2.num_resident_pages +
      (sys_memstat P M X ptr w).2.num_swapped_pages +
      (sys_memstat P M X ptr w).2.num_unmapped_pages =
        (sys_memstat P M X ptr w).2.pages.length ∧
    (w.proc.sz % PGSIZE = 0 → w.proc.sz / PGSIZE ≤ P.MAX_PAGES_INFO →
      (sys_memstat P M X ptr w).2.num_resident_pages +
        (sys_memstat P M X ptr w).2.num_swapped_pages +
        (sys_memstat P M X ptr w).2.num_unmapped_pages =
          (sys_memstat P M X ptr w).2.num_pages_total) := by
  obtain ⟨h1, h2, h3⟩ := sys_memstat_counts P M X ptr w
  have hsum : (sys_memstat P M X ptr w).2.num_resident_pages +
      (sys_memstat P M X ptr w).2.num_swapped_pages +
      (sys_memstat P M X ptr w).2.num_unmapped_pages =
        (sys_memstat P M X ptr w).2.pages.length := by
    rw [h1, h2, proc_mem_stat.num_unmapped_pages]
    exact count_states _
  refine ⟨hsum, ?_⟩
  intro hal hle
  rw [hsum, h3, sys_memstat_pages P M X ptr w hsz hmax]
  simp only [memstatEntries, List.length_map, List.length_range']
  simp only [PGSIZE] at hal hle ⊢
  omega

/-- Witness for C13 (amended): the swapping process of 4 pages. -/
theorem memstat_counts_sum_witness :
    (sys_memstat demoParams demoMacros demoSys 0x3000 swapWorld).2.num_resident_pages +
      (sys_memstat demoParams demoMacros demoSys 0x3000 swapWorld).2.num_swapped_pages +
      (sys_memstat demoParams demoMacros demoSys 0x3000 swapWorld).2.num_unmapped_pages =
        (sys_memstat demoParams demoMacros demoSys 0x3000 swapWorld).2.num_pages_total :=
  (memstat_counts_sum demoParams demoMacros demoSys 0x3000 swapWorld (by decide)
    (by decide)).2 (by decide) (by decide)

/-- C14: `memstat` reports min(ceil(sz / PGSIZE), MAX_PAGES_INFO) entries;
entry `i` describes `va = i * PGSIZE`; its state is RESIDENT iff the leaf PTE
exists with V=1, SWAPPED iff it exists with V=0 and S=1, UNMAPPED otherwise;
`swap_slot` is the PTE's slot index for a SWAPPED entry and -1 otherwise;
`seq` is -1 for every entry that is not RESIDENT; `is_dirty` is the PTE's D bit
for a RESIDENT entry and 0 otherwise; `num_resident_pages` and
`num_swapped_pages` are the numbers of RESIDENT and SWAPPED entries.  Here
`sz` is a 64-bit value and the array of MAX_PAGES_INFO entries is not larger
than the address space. -/
theorem memstat_entries (P : Params) (M : Macros) (X : SysExt) (ptr : Nat) (w : World)
    (hsz : w.proc.sz < 2 ^ 64) (hmax : P.MAX_PAGES_INFO ≤ 2 ^ 52) :
    (sys_memstat P M X ptr w).2.pages.length =
      min ((w.proc.sz + PGSIZE - 1) / PGSIZE) P.MAX_PAGES_INFO ∧
    (∀ i ps, (sys_memstat P M X ptr w).2.pages[i]? = some ps →
      ps.va = i * PGSIZE ∧
      (ps.state = .RESIDENT ↔
        ∃ e, w.proc.pagetable (i * PGSIZE) = some e ∧ e &&& PTE_V ≠ 0) ∧
      (ps.state = .SWAPPED ↔
        ∃ e, w.proc.pagetable (i * PGSIZE) = some e ∧ e &&& PTE_V = 0 ∧ e &&& M.PTE_S ≠ 0) ∧
      (ps.state = .UNMAPPED ↔
        (w.proc.pagetable (i * PGSIZE) = none ∨
          ∃ e, w.proc.pagetable (i * PGSIZE) = some e ∧ e &&& PTE_V = 0 ∧ e &&& M.PTE_S = 0)) ∧
      (∀ e, w.proc.pagetable (i * PGSIZE) = some e → ps.state = .SWAPPED →
        ps.swap_slot = toInt32 (M.PTE_SLOT e)) ∧
      (ps.state ≠ .SWAPPED → ps.swap_slot = -1) ∧
      (ps.state ≠ .RESIDENT → ps.seq = -1) ∧
      (∀ e, w.proc.pagetable (i * PGSIZE) = some e → ps.state = .RESIDENT →
        ps.is_dirty = if e &&& PTE_D ≠ 0 then 1 else 0) ∧
      (ps.state ≠ .RESIDENT → ps.is_dirty = 0)) ∧
    (sys_memstat P M X ptr w).2.num_resident_pages =
      (sys_memstat P M X ptr w).2.pages.countP (fun ps => ps.state = .RESIDENT) ∧
    (sys_memstat P M X ptr w).2.num_swapped_pages =
      (sys_memstat P M X ptr w).2.pages.countP (fun ps => ps.state = .SWAPPED) := by
  obtain ⟨h1, h2, _⟩ := sys_memstat_counts P M X ptr w
  have hp := sys_memstat_pages P M X ptr w hsz hmax
  refine ⟨?_, ?_, h1, h2⟩
  · rw [hp]
    simp [memstatEntries]
  · intro i ps hget
    rw [hp] at hget
    simp only [memstatEntries, List.getElem?_map, Option.map_eq_some'] at hget
    obtain ⟨j, hj, rfl⟩ := hget
    have hji : j = i := by
      obtain ⟨_, hval⟩ := List.getElem?_eq_some.mp hj
      simp only [List.getElem_range'] at hval
      omega
    subst hji
    exact memstatEntry_spec M X w.proc (j * PGSIZE)

set_option maxRecDepth 100000 in
/-- Witness for C14: the swapping process of 4 pages: four entries, page 2
SWAPPED in slot 5, page 3 RESIDENT with sequence number 6. -/
theorem memstat_entries_witness :
    (sys_memstat demoParams demoMacros demoSys 0x3000 swapWorld).2.pages.length =
      min ((swapWorld.proc.sz + PGSIZE - 1) / PGSIZE) demoParams.MAX_PAGES_INFO ∧
    (sys_memstat demoParams demoMacros demoSys 0x3000 swapWorld).2.pages =
      [{ va := 0, state := .UNMAPPED, is_dirty := 0, seq := -1, swap_slot := -1 },
       { va := 0x1000, state := .UNMAPPED, is_dirty := 0, seq := -1, swap_slot := -1 },
       { va := 0x2000, state := .SWAPPED, is_dirty := 0, seq := -1, swap_slot := 5 },
       { va := 0x3000, state := .RESIDENT, is_dirty := 0, seq := 6, swap_slot := -1 }] :=
  ⟨(memstat_entries demoParams demoMacros demoSys 0x3000 swapWorld (by decide) (by decide)).1,
   by decide⟩

/-! ## C17, C18: the cause printed for a fresh page -/

theorem freshCause_eq_spec (p : Proc) (va : Nat) (hsp : p.sp < 2 ^ 64)
    (hva : va + PGSIZE < 2 ^ 64) :
    freshCause p va = specCause p.exe_end p.sz p.sp va := by
  unfold freshCause specCause
  have hiff : (va ≥ p.sp ∧ va < (p.sp + PGSIZE) % 2 ^ 64) ↔ (p.sp ≤ va ∧ va < p.sp + PGSIZE) := by
    simp only [PGSIZE] at hva ⊢
    constructor
    · rintro ⟨h1, h2⟩
      refine ⟨h1, ?_⟩
      omega
    · rintro ⟨h1, h2⟩
      refine ⟨h1, ?_⟩
      omega
  simp only [ge_iff_le] at hiff ⊢
  by_cases h1 : p.exe_end ≤ va ∧ va < p.sz
  · simp [h1]
  · simp only [h1, if_false]
    by_cases h2 : p.sp ≤ va ∧ va < p.sp + PGSIZE
    · rw [if_pos (hiff.mpr h2), if_pos h2]
    · rw [if_neg (fun h => h2 (hiff.mp h)), if_neg h2]

theorem freshCause_stack_only (p : Proc) (va : Nat) (h : freshCause p va = .stack) :
    p.sp ≤ va ∧ va < p.sp + PGSIZE ∧ ¬ (p.exe_end ≤ va ∧ va < p.sz) := by
  unfold freshCause at h
  split_ifs at h with h1 h2 h3
  obtain ⟨h2a, h2b⟩ := h2
  refine ⟨h2a, ?_, h1⟩
  have := Nat.mod_le (p.sp + PGSIZE) (2 ^ 64)
  omega

/-- C17 (counterexample): a write fault on the fresh page 0x3000 of a process
with `sp = 0x3000`, `exe_end = 0x1000`, `sz = 0x4000`: the address lies in
`[sp, sp + PGSIZE)` and the PAGEFAULT line carries cause=heap. -/
theorem stack_range_fault_logged_as_heap :
    alignedSpWorld.proc.sp ≤ PGROUNDDOWN 0x3008 ∧
    PGROUNDDOWN 0x3008 < alignedSpWorld.proc.sp + PGSIZE ∧
    (usertrap_pagefault demoLayout demoMacros okExt 15 0x3008 alignedSpWorld).trace =
      [.print (.pagefault 3 0x3000 .write .heap), .vmfault 0x3000 0 0x87ffd000] := by
  decide

/-- C17 (amended): for a fresh-demand fault (leaf PTE with V=0 and S=0) whose
page-aligned address `va` lies in `sp <= va < sp + PGSIZE` (the sum within 64
bits), the PAGEFAULT line carries cause=stack when `va` is outside
`[exe_end, sz)`, and cause=heap when `exe_end <= va < sz`: the heap test comes
first. -/
theorem stack_range_fault_cause (L : Layout) (M : Macros) (E : Ext) (scause stval : Nat)
    (w : World) (e : Nat)
    (hpte : w.proc.pagetable (PGROUNDDOWN stval) = some e)
    (hV : e &&& PTE_V = 0) (hS : e &&& M.PTE_S = 0)
    (hlo : w.proc.sp ≤ PGROUNDDOWN stval) (hhi : PGROUNDDOWN stval < w.proc.sp + PGSIZE)
    (h64 : w.proc.sp + PGSIZE < 2 ^ 64) :
    (usertrap_pagefault L M E scause stval w).trace.head? =
      some (.print (.pagefault w.proc.pid (PGROUNDDOWN stval) (accessType scause)
        (if w.proc.exe_end ≤ PGROUNDDOWN stval ∧ PGROUNDDOWN stval < w.proc.sz
          then .heap else .stack))) := by
  rw [(usertrap_fresh_arm L M E scause stval w e hpte hV hS).1]
  have hmod : (w.proc.sp + PGSIZE) % 2 ^ 64 = w.proc.sp + PGSIZE := Nat.mod_eq_of_lt h64
  have hc : freshCause w.proc (PGROUNDDOWN stval) =
      (if w.proc.exe_end ≤ PGROUNDDOWN stval ∧ PGROUNDDOWN stval < w.proc.sz
        then Cause.heap else Cause.stack) := by
    unfold freshCause
    by_cases h1 : w.proc.exe_end ≤ PGROUNDDOWN stval ∧ PGROUNDDOWN stval < w.proc.sz
    · simp only [ge_iff_le, h1, and_self, if_true]
    · have h2 : PGROUNDDOWN stval ≥ w.proc.sp ∧
          PGROUNDDOWN stval < (w.proc.sp + PGSIZE) % 2 ^ 64 := by
        rw [hmod]; exact ⟨hlo, hhi⟩
      simp only [ge_iff_le] at h2
      simp only [ge_iff_le, h1, if_false, h2, and_self, if_true]
  rw [hc]
  rfl

/-- Witness for C17 (amended): a fault on the page 0x4000 just above `sz` in
the process with `sp = 0x3fe0`: cause=stack. -/
theorem stack_range_fault_cause_witness :
    (usertrap_pagefault demoLayout demoMacros failExt 15 0x4008 demoWorld).trace.head? =
      some (.print (.pagefault 3 0x4000 .write .stack)) :=
  stack_range_fault_cause demoLayout demoMacros failExt 15 0x4008 demoWorld 0
    (by decide) (by decide) (by decide) (by decide) (by decide) (by decide)

/-- C18: for every fresh-demand fault (leaf PTE with V=0 and S=0) the handler
prints first the PAGEFAULT line whose cause is: heap if `exe_end <= va < sz`;
otherwise stack if `sp <= va < sp + PGSIZE` (the sum taken in 64 bits);
otherwise exec if `va < exe_end`; otherwise heap.  For `sp` a 64-bit value and
`va` below the last page of the 64-bit space this is the decision function
of the specification with the plain sum.  A fault is printed as stack only
if `sp <= va < sp + PGSIZE`, and the cause is always heap, stack or exec. -/
theorem fresh_cause_decision (L : Layout) (M : Macros) (E : Ext) (scause stval : Nat)
    (w : World) (e : Nat)
    (hpte : w.proc.pagetable (PGROUNDDOWN stval) = some e)
    (hV : e &&& PTE_V = 0) (hS : e &&& M.PTE_S = 0) :
    (usertrap_pagefault L M E scause stval w).trace.head? =
      some (.print (.pagefault w.proc.pid (PGROUNDDOWN stval) (accessType scause)
        (if w.proc.exe_end ≤ PGROUNDDOWN stval ∧ PGROUNDDOWN stval < w.proc.sz then .heap
         else if w.proc.sp ≤ PGROUNDDOWN stval ∧
            PGROUNDDOWN stval < (w.proc.sp + PGSIZE) % 2 ^ 64 then .stack
         else if PGROUNDDOWN stval < w.proc.exe_end then .exec
         else .heap))) ∧
    (w.proc.sp < 2 ^ 64 → PGROUNDDOWN stval + PGSIZE < 2 ^ 64 →
      (usertrap_pagefault L M E scause stval w).trace.head? =
        some (.print (.pagefault w.proc.pid (PGROUNDDOWN stval) (accessType scause)
          (specCause w.proc.exe_end w.proc.sz w.proc.sp (PGROUNDDOWN stval))))) ∧
    ((usertrap_pagefault L M E scause stval w).trace.head? =
        some (.print (.pagefault w.proc.pid (PGROUNDDOWN stval) (accessType scause) .stack)) →
      w.proc.sp ≤ PGROUNDDOWN stval ∧ PGROUNDDOWN stval < w.proc.sp + PGSIZE) ∧
    (∃ c, (c = Cause.heap ∨ c = Cause.stack ∨ c = Cause.exec) ∧
      (usertrap_pagefault L M E scause stval w).trace.head? =
        some (.print (.pagefault w.proc.pid (PGROUNDDOWN stval) (accessType scause) c))) := by
  have hf := (usertrap_fresh_arm L M E scause stval w e hpte hV hS).1
  have hhead : (usertrap_pagefault L M E scause stval w).trace.head? =
      some (.print (.pagefault w.proc.pid (PGROUNDDOWN stval) (accessType scause)
        (freshCause w.proc (PGROUNDDOWN stval)))) := by
    rw [hf]; rfl
  refine ⟨?_, ?_, ?_, ?_⟩
  · rw [hhead]; rfl
  · intro hsp hva
    rw [hhead, freshCause_eq_spec w.proc _ hsp hva]
  · intro h
    rw [hhead] at h
    have hc : freshCause w.proc (PGROUNDDOWN stval) = .stack := by
      injection h with h
      injection h with h
      injection h
    obtain ⟨h1, h2, _⟩ := freshCause_stack_only w.proc _ hc
    exact ⟨h1, h2⟩
  · exact ⟨_, freshCause_kinds w.proc (PGROUNDDOWN stval), hhead⟩

/-- Witness for C18: the fault at 0x5008 above `sz` is printed as heap (the
last case of the decision function). -/
theorem fresh_cause_decision_witness :
    (usertrap_pagefault demoLayout demoMacros failExt 15 0x5008 demoWorld).trace.head? =
      some (.print (.pagefault 3 0x5000 .write
        (specCause demoWorld.proc.exe_end demoWorld.proc.sz demoWorld.proc.sp 0x5000))) :=
  (fresh_cause_decision demoLayout demoMacros failExt 15 0x5008 demoWorld 0
    (by decide) (by decide) (by decide)).2.1 (by decide) (by decide)

/-! ## C19: two CPUs in `kalloc` -/

theorem fast_path_steps_agree (E : Ext) (w : World) (hne : w.kmem.freelist ≠ 0) :
    (runSchedule [false, false, false] { kmem := w.kmem, cpu0 := .start, cpu1 := .start }).cpu0 =
      .done (kalloc E w).val ∧
    (runSchedule [false, false, false] { kmem := w.kmem, cpu0 := .start, cpu1 := .start }).kmem =
      (kalloc E w).world.kmem := by
  simp [runSchedule, KPc.step, kalloc, hne]

/-- C19 (the code at the failing input): two CPUs call `kalloc` on the free
list 0x87fff000, 0x87ffe000.  When both pass the first critical section
(read of the head) before either enters the second one (the pop), both
return the frame 0x87fff000; and when CPU 0 has finished its `memset` before
CPU 1 pops, CPU 1 also leaves the poison word 0x0505050505050505 as the head
of the free list. -/
theorem kalloc_race_same_frame :
    demoKmem.holds [0x87fff000, 0x87ffe000] ∧
    (runSchedule [false, true, false, true, false, true]
      { kmem := demoKmem, cpu0 := .start, cpu1 := .start }).cpu0 = .done 0x87fff000 ∧
    (runSchedule [false, true, false, true, false, true]
      { kmem := demoKmem, cpu0 := .start, cpu1 := .start }).cpu1 = .done 0x87fff000 ∧
    (runSchedule [false, true, false, false, true, true]
      { kmem := demoKmem, cpu0 := .start, cpu1 := .start }).cpu1 = .done 0x87fff000 ∧
    (runSchedule [false, true, false, false, true, true]
      { kmem := demoKmem, cpu0 := .start, cpu1 := .start }).cpu0 = .done 0x87fff000 ∧
    (runSchedule [false, true, false, false, true, true]
      { kmem := demoKmem, cpu0 := .start, cpu1 := .start }).kmem.freelist =
        0x0505050505050505 := by
  decide

/-! ## C15, C20: `kexec` at two failing inputs -/

/-- C15 (the code at the failing input): exec of a file whose single LOAD
segment has `vaddr = 0` and `memsz = 2^64 - 1` succeeds (it returns argc = 1):
`PGROUNDUP` wraps to 0, the stack page is allocated at `[0, 0x1000)`, and the
process is left with `exe_end = 2^64 - 1` and `sz = 0x1000`, so
`exe_end <= sz` does not hold. -/
theorem exec_huge_segment :
    (kexec demoParams demoExec (some hugeElf) ["sh"] execState).ret = 1 ∧
    (kexec demoParams demoExec (some hugeElf) ["sh"] execState).state.world.proc.exe_end =
      2 ^ 64 - 1 ∧
    (kexec demoParams demoExec (some hugeElf) ["sh"] execState).state.world.proc.sz = 0x1000 ∧
    (kexec demoParams demoExec (some hugeElf) ["sh"] execState).state.world.proc.sz <
      (kexec demoParams demoExec (some hugeElf) ["sh"] execState).state.world.proc.exe_end := by
  decide

/-- C20 (the code at the failing input): the process with executable inode 7,
swap file 1 and swap slot 5 in use calls exec.  On a file whose program header
has `memsz < filesz`, `kexec` returns -1 with `sz` and the page table as
before, but the executable inode is now the new file's, the swap inode is
gone and slot 5 is marked free.  On a good file when no frame is free
(`uvmalloc` fails), `kexec` returns -1 and `exe_end` has been overwritten as
well. -/
theorem exec_failure_not_atomic :
    execState.exe_inode = some 7 ∧
    execState.world.proc.swap_inode = some 1 ∧
    execState.world.proc.swap_slots 5 = true ∧
    execState.world.proc.exe_end = 0x1000 ∧
    (kexec demoParams demoExec (some badElf) ["sh"] execState).ret = -1 ∧
    (kexec demoParams demoExec (some badElf) ["sh"] execState).state.world.proc.sz = 0x4000 ∧
    (kexec demoParams demoExec (some badElf) ["sh"] execState).state.exe_inode = some 9 ∧
    (kexec demoParams demoExec (some badElf) ["sh"] execState).state.world.proc.swap_inode
      = none ∧
    (kexec demoParams demoExec (some badElf) ["sh"] execState).state.world.proc.swap_slots 5
      = false ∧
    (kexec demoParams demoExec (some goodElf) ["sh"] execStateFull).ret = -1 ∧
    (kexec demoParams demoExec (some goodElf) ["sh"] execStateFull).state.world.proc.exe_end
      = 0x2500 := by
  decide

/-! ## C16: what a successful exec sets up -/

theorem scanHeaders_ok (P : Params) (f : ElfFile)
    (hfields : ∀ i ph, f.ph i = some ph → ph.vaddr < 2 ^ 64 ∧ ph.memsz < 2 ^ 64) :
    ∀ (n i sz : Nat), (scanHeaders P f n i sz).1.1 = true →
      (scanHeaders P f n i sz).1.2 = (loadTops P f i n).foldl max sz ∧
      (scanHeaders P f n i sz).2 =
        (List.range' i n).map (fun j => ExecEvent.readProgHdr j true) := by
  intro n
  induction n with
  | zero => intro i sz _; simp [scanHeaders, loadTops]
  | succ n ih =>
    intro i sz hok
    unfold scanHeaders at hok ⊢
    cases hph : f.ph i with
    | none => simp [hph] at hok
    | some ph =>
      obtain ⟨hv, hm⟩ := hfields i ph hph
      rw [hph] at hok
      dsimp only at hok ⊢
      have hmax : ∀ t, (if sz < t then t else sz) = max sz t := by
        intro t
        rw [max_def]
        split_ifs <;> omega
      rw [hmax] at hok ⊢
      split_ifs at hok ⊢ with hload h1 h2 h3
      · simp only [withEvent] at hok ⊢
        obtain ⟨ih1, ih2⟩ := ih (i + 1) _ hok
        rw [ih1, ih2]
        refine ⟨?_, by simp [List.range'_succ]⟩
        have hl : ¬ ph.ptype = P.ELF_PROG_LOAD := hload
        simp [loadTops, List.range'_succ, hph, hl]
      · simp only [withEvent] at hok ⊢
        have hmod : (ph.vaddr + ph.memsz) % 2 ^ 64 = ph.vaddr + ph.memsz := by
          omega
        obtain ⟨ih1, ih2⟩ := ih (i + 1) _ hok
        rw [ih1, ih2, hmod]
        refine ⟨?_, by simp [List.range'_succ]⟩
        have hl : ph.ptype = P.ELF_PROG_LOAD := not_not.mp hload
        simp [loadTops, List.range'_succ, hph, hl]

theorem pushArgs_events (P : Params) (X : ExecExt) (pt : Nat → Option Nat) (stackbase : Nat) :
    ∀ (argv : List String) (argc sp : Nat) (ustack : List Nat),
      (pushArgs P X pt stackbase argv argc sp ustack).2.filter ExecEvent.isUvmalloc = [] ∧
      (pushArgs P X pt stackbase argv argc sp ustack).2.filter ExecEvent.isRead = [] := by
  intro argv
  induction argv with
  | nil => intro argc sp ustack; simp [pushArgs]
  | cons a rest ih =>
    intro argc sp ustack
    unfold pushArgs
    simp only []
    split_ifs
    · simp
    · simp
    · simp [ExecEvent.isUvmalloc, ExecEvent.isRead]
    · simp only [withEvent, List.filter_cons, ExecEvent.isUvmalloc, ExecEvent.isRead]
      exact ih _ _ _

theorem iputOf_events (o : Option Nat) :
    (iputOf o).filter ExecEvent.isUvmalloc = [] ∧ (iputOf o).filter ExecEvent.isRead = [] := by
  cases o <;> simp [iputOf, ExecEvent.isUvmalloc, ExecEvent.isRead]

theorem readProgHdr_events (l : List Nat) :
    (l.map (fun j => ExecEvent.readProgHdr j true)).filter ExecEvent.isUvmalloc = [] ∧
    (l.map (fun j => ExecEvent.readProgHdr j true)).filter ExecEvent.isRead =
      l.map (fun j => ExecEvent.readProgHdr j true) := by
  induction l with
  | nil => simp
  | cons a l ih => simp [List.filter_cons, ExecEvent.isUvmalloc, ExecEvent.isRead, ih.1, ih.2]

theorem or_valid (x : Nat) : (x ||| PTE_V) &&& PTE_V ≠ 0 := by
  intro h
  have := congrArg (fun y => Nat.testBit y 0) h
  simp [PTE_V] at this

theorem demoExec_uvmalloc : UvmallocSpec demoExec := by
  intro pt a xperm w hal hroom
  have hproc : (kalloc failExt w).world.proc = w.proc := by
    rcases kalloc_proc failExt w with h | ⟨_, h⟩
    · exact h
    · rw [h]; rfl
  have hround : PGROUNDUP a = a := by
    simp only [PGROUNDUP, PGSIZE] at *
    omega
  have hlt : a < a + PGSIZE := by
    simp only [PGSIZE]
    omega
  simp only [demoExec, hround, if_pos hlt]
  split_ifs with h2
  · exact ⟨by rw [hproc], fun h => absurd rfl h⟩
  · refine ⟨by rw [hproc], fun _ => ⟨rfl, ?_, ?_⟩⟩
    · simp only [isMapped, Function.update_same]
      exact decide_eq_true (or_valid _)
    · intro va hva
      have hne : va ≠ a := by omega
      simp only [isMapped, Function.update_noteq hne]

theorem goodElf_fields :
    ∀ i ph, goodElf.ph i = some ph → ph.vaddr < 2 ^ 64 ∧ ph.memsz < 2 ^ 64 := by
  intro i ph h
  simp only [goodElf] at h
  split_ifs at h <;> cases h <;> decide

theorem ok_of_not_panicked {σ : Type} (o : Outcome σ) (h : o.panicked = false) :
    o = .ok o.state := by
  cases o with
  | ok s => rfl
  | panic msg s => simp [Outcome.panicked] at h

theorem kfree_ok_frame (L : Layout) (pa : Nat) (k k' : Kmem) (h : kfree L pa k = .ok k') :
    frameOk L pa ∧
    k' = { freelist := pa,
           next := Function.update (Function.update k.next pa (fillWord 1)) pa k.freelist } := by
  unfold kfree at h
  split_ifs at h with hc
  simp only [memsetPage, Outcome.ok.injEq] at h
  refine ⟨?_, h.symm⟩
  unfold frameOk
  omega

theorem kfree_push (L : Layout) (pa : Nat) (k : Kmem) (l : List Nat)
    (hok : frameOk L pa) (hne : pa ≠ 0) (hl : k.holds l) (hnot : pa ∉ l) :
    ∃ k', kfree L pa k = .ok k' ∧ k'.holds (pa :: l) := by
  obtain ⟨h1, h2, h3⟩ := hok
  have hc : ¬ (pa % PGSIZE ≠ 0 ∨ pa < L.kend ∨ pa ≥ L.PHYSTOP) := by omega
  rw [kfree, if_neg hc]
  refine ⟨_, rfl, ?_⟩
  simp only [Kmem.holds, chain, memsetPage, Function.update_same]
  refine ⟨trivial, hne, ?_⟩
  apply chain_congr k.next _ l _ _ hl
  intro b hb
  have hbne : b ≠ pa := by
    rintro rfl
    exact hnot hb
  rw [Function.update_noteq hbne, Function.update_noteq hbne]

theorem kalloc_fast_holds (E : Ext) (w : World) (a : Nat) (t : List Nat)
    (h : w.kmem.holds (a :: t)) :
    (kalloc E w).val = a ∧ (kalloc E w).trace = [.look a] ∧ (kalloc E w).world.kmem.holds t := by
  have hna : a ∉ t := chain_head_not_mem _ _ _ _ h
  simp only [Kmem.holds, chain] at h
  obtain ⟨hh, ha, ht⟩ := h
  have hne : w.kmem.freelist ≠ 0 := by rw [hh]; exact ha
  simp only [kalloc, hne, ne_eq, not_false_eq_true, if_true, memsetPage, Kmem.holds]
  refine ⟨hh, by rw [hh], ?_⟩
  rw [hh]
  apply chain_congr w.kmem.next _ t _ _ ht
  intro b hb
  rw [Function.update_noteq]
  rintro rfl
  exact hna hb

theorem chain_getElem (next : Nat → Nat) :
    ∀ (l : List Nat) (h : Nat), chain next h l →
      (l[0]? = if h = 0 then none else some h) ∧
      ∀ n r, l[n]? = some r → l[n + 1]? = if next r = 0 then none else some (next r) := by
  intro l
  induction l with
  | nil =>
    intro h hc
    simp only [chain] at hc
    simp [hc]
  | cons a t ih =>
    intro h hc
    simp only [chain] at hc
    obtain ⟨hh, ha, ht⟩ := hc
    obtain ⟨ih0, ihn⟩ := ih _ ht
    refine ⟨by simp [hh, ha], ?_⟩
    intro n r hr
    cases n with
    | zero =>
      simp only [List.getElem?_cons_zero, Option.some.injEq] at hr
      subst hr
      simpa using ih0
    | succ m =>
      simp only [List.getElem?_cons_succ] at hr ⊢
      exact ihn m r hr

theorem holds_nth (k : Kmem) (l : List Nat) (h : k.holds l) : ∀ n, k.nth n = l[n]? := by
  obtain ⟨h0, hn⟩ := chain_getElem k.next l k.freelist h
  intro n
  induction n with
  | zero => simp only [Kmem.nth]; exact h0.symm
  | succ m ih =>
    simp only [Kmem.nth, ih]
    cases hr : l[m]? with
    | none =>
      have hlen : l.length ≤ m := List.getElem?_eq_none_iff.mp hr
      simp only []
      exact (List.getElem?_eq_none_iff.mpr (by omega)).symm
    | some r => exact (hn m r hr).symm

theorem holds_framesOk (L : Layout) (k : Kmem) (l : List Nat) (h : k.holds l)
    (hl : ∀ p ∈ l, frameOk L p) : k.framesOk L := by
  intro n p hp
  rw [holds_nth k l h n] at hp
  obtain ⟨hlt, hval⟩ := List.getElem?_eq_some.mp hp
  exact hl p (hval ▸ List.getElem_mem hlt)

theorem push_reach (k k2 : Kmem) (pa : Nat) (hf : k2.freelist = pa)
    (hpa : k2.next pa = k.freelist) (hn : ∀ r, r ≠ pa → k2.next r = k.next r) :
    ∀ n p, k2.nth n = some p → p = pa ∨ ∃ m, k.nth m = some p := by
  intro n
  induction n with
  | zero =>
    intro p hp
    simp only [Kmem.nth, hf] at hp
    split_ifs at hp
    left
    exact (Option.some.inj hp).symm
  | succ n ih =>
    intro p hp
    simp only [Kmem.nth] at hp
    split at hp
    · exact absurd hp (by simp)
    · rename_i r hr
      split_ifs at hp with hz
      have hp2 := (Option.some.inj hp).symm
      right
      by_cases hrp : r = pa
      · subst hrp
        rw [hpa] at hp2 hz
        refine ⟨0, ?_⟩
        simp only [Kmem.nth, hz, if_false, hp2]
      · rcases ih r hr with h1 | ⟨m, hm⟩
        · exact absurd h1 hrp
        · rw [hn r hrp] at hp2 hz
          refine ⟨m + 1, ?_⟩
          simp only [Kmem.nth, hm, hz, if_false, hp2]

theorem kfree_framesOk (L : Layout) (pa : Nat) (k k2 : Kmem) (hk : k.framesOk L)
    (h : kfree L pa k = .ok k2) : k2.framesOk L := by
  obtain ⟨hpa, rfl⟩ := kfree_ok_frame L pa k k2 h
  intro n p hp
  rcases push_reach k _ pa rfl (by simp) (by
      intro r hr
      simp only [Function.update_noteq hr]) n p hp with rfl | ⟨m, hm⟩
  · exact hpa
  · exact hk m p hm

theorem freerangeLoop_run (L : Layout) (pa_end : Nat) (hend : 0 < L.kend)
    (hstop : pa_end ≤ L.PHYSTOP) (h64 : pa_end + 2 * PGSIZE ≤ 2 ^ 64) :
    ∀ (n fuel p : Nat) (k : Kmem) (l : List Nat),
      n < fuel → p % PGSIZE = 0 → L.kend ≤ p → p < pa_end + PGSIZE →
      n = (pa_end - p) / PGSIZE →
      k.holds l → (∀ q ∈ l, q < p) →
      ∃ k', freerangeLoop L pa_end fuel p k = some (.ok k') ∧
        k'.holds ((List.range' p n PGSIZE).reverse ++ l) := by
  intro n
  induction n with
  | zero =>
    intro fuel p k l hf hal hlo hhi hn hl hlt
    cases fuel with
    | zero => omega
    | succ fuel =>
      have hc : ¬ (p + PGSIZE) % 2 ^ 64 ≤ pa_end := by
        simp only [PGSIZE] at *
        omega
      refine ⟨k, ?_, by simpa using hl⟩
      rw [freerangeLoop, if_neg hc]
  | succ n ih =>
    intro fuel p k l hf hal hlo hhi hn hl hlt
    cases fuel with
    | zero => omega
    | succ fuel =>
      have hmod : (p + PGSIZE) % 2 ^ 64 = p + PGSIZE := by
        simp only [PGSIZE] at *
        omega
      have hc : (p + PGSIZE) % 2 ^ 64 ≤ pa_end := by
        simp only [PGSIZE] at *
        omega
      have hok : frameOk L p := by
        unfold frameOk
        simp only [PGSIZE] at *
        omega
      have hnot : p ∉ l := fun hm => absurd (hlt p hm) (by omega)
      obtain ⟨k1, hk1, hh1⟩ := kfree_push L p k l hok (by omega) hl hnot
      obtain ⟨k2, hk2, hh2⟩ := ih fuel (p + PGSIZE) k1 (p :: l) (by omega)
        (by simp only [PGSIZE] at *; omega) (by omega)
        (by simp only [PGSIZE] at *; omega)
        (by simp only [PGSIZE] at *; omega) hh1
        (by
          intro q hq
          rcases List.mem_cons.mp hq with rfl | hq
          · simp only [PGSIZE]; omega
          · have := hlt q hq
            omega)
      refine ⟨k2, ?_, ?_⟩
      · rw [freerangeLoop, if_pos hc, hk1]
        simp only [hmod]
        exact hk2
      · simpa [List.range'_succ] using hh2

theorem freerangeLoop_isSome (L : Layout) (pa_end : Nat) (hend : 0 < L.kend) :
    ∀ (fuel p : Nat) (k : Kmem), p % PGSIZE = 0 → p < 2 ^ 64 →
      (2 ^ 64 - p) / PGSIZE < fuel → (freerangeLoop L pa_end fuel p k).isSome = true := by
  intro fuel
  induction fuel with
  | zero => intro p k _ _ h; exact absurd h (Nat.not_lt_zero _)
  | succ fuel ih =>
    intro p k hal hlt hf
    rw [freerangeLoop]
    split_ifs with hc
    · cases hk : kfree L p k with
      | panic msg k1 => rfl
      | ok k1 =>
        simp only []
        by_cases hw : p + PGSIZE < 2 ^ 64
        · have hmod : (p + PGSIZE) % 2 ^ 64 = p + PGSIZE := Nat.mod_eq_of_lt hw
          rw [hmod]
          apply ih
          · simp only [PGSIZE] at *; omega
          · exact hw
          · simp only [PGSIZE] at *; omega
        · have hmod : (p + PGSIZE) % 2 ^ 64 = 0 := by
            simp only [PGSIZE] at *
            omega
          rw [hmod]
          cases fuel with
          | zero => simp only [PGSIZE] at *; omega
          | succ fuel =>
            rw [freerangeLoop]
            split_ifs with hc0
            · have hz : kfree L 0 k1 = .panic "kfree" k1 := by
                have hcz : (0 % PGSIZE ≠ 0 ∨ 0 < L.kend ∨ 0 ≥ L.PHYSTOP) := Or.inr (Or.inl hend)
                rw [kfree, if_pos hcz]
              rw [hz]
              rfl
            · rfl
    · rfl

theorem PGROUNDUP_bounds (a : Nat) (h : a + PGSIZE ≤ 2 ^ 64) :
    PGROUNDUP a % PGSIZE = 0 ∧ a ≤ PGROUNDUP a ∧ PGROUNDUP a < a + PGSIZE := by
  simp only [PGROUNDUP, PGSIZE] at *
  omega

theorem PGROUNDUP_aligned (a : Nat) : PGROUNDUP a % PGSIZE = 0 ∧ PGROUNDUP a < 2 ^ 64 := by
  simp only [PGROUNDUP, PGSIZE]
  omega

theorem mem_rangeFrames (pa_start pa_end p : Nat) :
    p ∈ rangeFrames pa_start pa_end ↔
      p % PGSIZE = 0 ∧ PGROUNDUP pa_start ≤ p ∧ p + PGSIZE ≤ pa_end := by
  have hal := (PGROUNDUP_aligned pa_start).1
  simp only [rangeFrames, List.mem_range']
  generalize PGROUNDUP pa_start = p0 at hal ⊢
  simp only [PGSIZE] at *
  constructor
  · rintro ⟨i, hi, rfl⟩
    omega
  · rintro ⟨h1, h2, h3⟩
    exact ⟨(p - p0) / 4096, by omega, by omega⟩

theorem freerange_run (L : Layout) (hend : 0 < L.kend) (htop : L.PHYSTOP + 2 * PGSIZE ≤ 2 ^ 64)
    (pa_start pa_end : Nat) (k : Kmem) (l : List Nat)
    (hlo : L.kend ≤ pa_start) (hle : pa_start ≤ pa_end) (hhi : pa_end ≤ L.PHYSTOP)
    (hl : k.holds l) (hlt : ∀ q ∈ l, q < pa_start) :
    ∃ k', freerange L pa_start pa_end k = some (.ok k') ∧
      k'.holds ((rangeFrames pa_start pa_end).reverse ++ l) := by
  obtain ⟨h1, h2, h3⟩ := PGROUNDUP_bounds pa_start (by simp only [PGSIZE] at *; omega)
  unfold freerange rangeFrames
  apply freerangeLoop_run L pa_end hend hhi (by simp only [PGSIZE] at *; omega)
  · simp only [PGSIZE] at *
    omega
  · exact h1
  · omega
  · omega
  · rfl
  · exact hl
  · intro q hq
    have := hlt q hq
    omega

theorem freerange_isSome (L : Layout) (hend : 0 < L.kend) (pa_start pa_end : Nat) (k : Kmem) :
    (freerange L pa_start pa_end k).isSome = true := by
  obtain ⟨h1, h2⟩ := PGROUNDUP_aligned pa_start
  unfold freerange
  apply freerangeLoop_isSome L pa_end hend _ _ _ h1 h2
  simp only [PGSIZE]
  omega

end Xv6
